import Mathlib

/-! # Defaulting of cluster variables

A shallow embedding of `internal/topology/variables/cluster_variable_defaulting.go`
(`DefaultClusterVariables`, `defaultClusterVariable`) together with the parts of the
package and of its libraries these two functions call:

* `encoding/json` is a library: its two entry points are the fields of `EncodingJSON`
  and every definition that decodes or encodes takes such a value as its first argument;
* the order in which `range` visits a Go map is unspecified: it is the argument
  `RangeOrder` of `DefaultClusterVariables`;
* `getClusterVariablesMap`, `getClusterClassVariablesMap` and
  `convertToAPIExtensionsJSONSchemaProps` live in files of the package other than the
  one embedded here and are modelled from the specification.
-/

namespace Variables

/-! ## Go values -/

/-- A Go byte slice `[]byte`; the nil slice and the empty slice are both `[]`. -/
abbrev Bytes := List UInt8

/-- The bytes of an ASCII string literal, as in `[]byte("true")`. -/
def bytes (s : String) : Bytes := s.toList.map fun c => c.toNat.toUInt8

/-- A Go slice whose nil-ness is observable: `nil` is the nil slice, `mk xs` is a
non-nil slice holding `xs` (possibly no element). -/
inductive Slice (α : Type) where
  | nil : Slice α
  | mk (elems : List α) : Slice α
deriving DecidableEq

namespace Slice

/-- The elements of a slice; a nil slice has none. -/
def toList {α : Type} : Slice α → List α
  | nil => []
  | mk xs => xs

/-- Go's `len(s)`. -/
def len {α : Type} (s : Slice α) : Nat := s.toList.length

/-- Go's `append(s, xs...)`: appending no element to a nil slice gives a nil slice,
every other append gives a non-nil one. -/
def append {α : Type} : Slice α → List α → Slice α
  | nil, [] => nil
  | nil, x :: xs => mk (x :: xs)
  | mk ys, xs => mk (ys ++ xs)

end Slice

/-- A Go `int64` is an integer in the range of 64-bit two's complement. -/
def Int64.InRange (i : Int) : Prop := -(2 : Int) ^ 63 ≤ i ∧ i < (2 : Int) ^ 63

instance (i : Int) : Decidable (Int64.InRange i) := by
  unfold Int64.InRange
  exact inferInstance

/-- A finite Go `float64`, identified with the rational number it denotes. -/
abbrev Float64 := ℚ

/-- The number of low bits that do not fit a 53-bit significand: how often `n` is
halved before it is below `2 ^ 53` (at most `fuel` times). -/
def excessBits : Nat → Nat → Nat
  | 0, _ => 0
  | fuel + 1, n => if n < 2 ^ 53 then 0 else excessBits fuel (n / 2) + 1

/-- The magnitude of the `float64` nearest to the natural number `n`, ties going to the
even significand (IEEE-754 round-to-nearest-even, the rounding of Go's conversions). -/
def roundToSignificand (n : Nat) : Nat :=
  let e := excessBits 64 n
  let q := n / 2 ^ e
  let r := n % 2 ^ e
  if 2 * r < 2 ^ e then q * 2 ^ e
  else if 2 * r = 2 ^ e then (if q % 2 = 0 then q else q + 1) * 2 ^ e
  else (q + 1) * 2 ^ e

/-- Go's conversion `float64(i)` of an `int64`: the nearest `float64`, which is again an
integer. -/
def float64 (i : Int) : Float64 :=
  if 0 ≤ i then ((roundToSignificand i.natAbs : Nat) : Int) else -((roundToSignificand i.natAbs : Nat) : Int)

/-- Go's conversion `int64(f)` of a `float64`: the fraction is discarded (truncation
toward zero); the language leaves the result open when the truncated value is not an
`int64`, which is `none` here. -/
def int64 (f : Float64) : Option Int :=
  let t := Int.tdiv f.num f.den
  if Int64.InRange t then some t else none

/-! ## JSON values and `encoding/json` -/

/-- The values `json.Unmarshal` stores into an `interface{}`: `nil`, `bool`, `float64`,
`string`, `[]interface{}` and `map[string]interface{}`. -/
inductive JSONValue where
  | null
  | bool (b : Bool)
  | number (f : Float64)
  | string (s : String)
  | array (elems : List JSONValue)
  | object (fields : List (String × JSONValue))

/-- The library `encoding/json`, as far as this package uses it: `json.Unmarshal` into an
`interface{}` and `json.Marshal` of an `interface{}`; each returns a value or an error
text. -/
structure EncodingJSON where
  Unmarshal : Bytes → Except String JSONValue
  Marshal : JSONValue → Except String Bytes

mutual
/-- The function `runtime.DeepCopyJSONValue`: a structural copy of a JSON value. -/
def DeepCopyJSONValue : JSONValue → JSONValue
  | .null => .null
  | .bool b => .bool b
  | .number f => .number f
  | .string s => .string s
  | .array xs => .array (deepCopyElems xs)
  | .object fs => .object (deepCopyFields fs)
/-- The copy of the elements of a `[]interface{}`. -/
def deepCopyElems : List JSONValue → List JSONValue
  | [] => []
  | x :: xs => DeepCopyJSONValue x :: deepCopyElems xs
/-- The copy of the entries of a `map[string]interface{}`. -/
def deepCopyFields : List (String × JSONValue) → List (String × JSONValue)
  | [] => []
  | (k, v) :: fs => (k, DeepCopyJSONValue v) :: deepCopyFields fs
end

/-! ## The API types -/

/-- The type `apiextensionsv1.JSON`: raw encoded JSON. -/
structure JSON where
  Raw : Bytes
deriving DecidableEq

/-- Modelled from the spec: the type `clusterv1.ClusterVariable` is declared in
`api/v1beta1`; section 3 and the tests give it a name and an encoded value. -/
structure ClusterVariable where
  Name : String
  Value : JSON
deriving DecidableEq

namespace clusterv1

/-- Modelled from the spec: the type `clusterv1.JSONSchemaProps` (the template dialect)
is declared in `api/v1beta1`; its fields are those section 3 lists and the tests set.
`Type_` is the Go field `Type`, a pointer field is an `Option`. -/
structure JSONSchemaProps where
  Type_ : String := ""
  Format : String := ""
  MaxLength : Option Int := none
  MinLength : Option Int := none
  Pattern : String := ""
  Maximum : Option Int := none
  ExclusiveMaximum : Bool := false
  Minimum : Option Int := none
  ExclusiveMinimum : Bool := false
  Enum : List JSON := []
  Default : Option JSON := none
deriving DecidableEq

/-- Modelled from the spec: the type `clusterv1.VariableSchema`, declared in
`api/v1beta1`, with the one field the sources read. -/
structure VariableSchema where
  OpenAPIV3Schema : JSONSchemaProps
deriving DecidableEq

/-- Modelled from the spec: the type `clusterv1.ClusterClassVariable` is declared in
`api/v1beta1`; section 3 and the tests give it a name, a required flag and a schema. -/
structure ClusterClassVariable where
  Name : String
  Required : Bool
  Schema : VariableSchema
deriving DecidableEq

end clusterv1

open clusterv1

namespace apiextensions

/-- The type `apiextensions.JSONSchemaProps` (the canonical dialect), with the fields
the sources name: bounds are `*float64`, `Default` is a `*JSON` and `Enum` a `[]JSON`,
where `apiextensions.JSON` is a decoded value. -/
structure JSONSchemaProps where
  Type_ : String
  Format : String
  MaxLength : Option Int
  MinLength : Option Int
  Pattern : String
  Maximum : Option Float64
  ExclusiveMaximum : Bool
  Minimum : Option Float64
  ExclusiveMinimum : Bool
  Enum : List JSONValue
  Default : Option JSONValue

end apiextensions

/-! ## Field errors -/

/-- A `*field.Path`, as its list of path elements (`nil` is `[]`). -/
abbrev FieldPath := List String

/-- Modelled from the spec: the error of `convertToAPIExtensionsJSONSchemaProps`
(section 4.3, a structural conversion error), as the encoded field that could not be
decoded and the error text of the decoder. -/
inductive ConversionError where
  | unmarshalDefault (err : String)
  | unmarshalEnum (index : Nat) (err : String)
deriving DecidableEq

/-- The detail text of a field error, kept as the `fmt.Sprintf` format that built it and
its arguments: `invalidSchema n e` is
`"invalid schema in ClusterClass for variable %q: error to convert schema %v"` at `n`, `e`
and `marshalDefault n e` is `"failed to marshal default value of variable %q: %v"`. -/
inductive Detail where
  | invalidSchema (variableName : String) (err : ConversionError)
  | marshalDefault (variableName : String) (err : String)
deriving DecidableEq

/-- The variable a detail text quotes. -/
def Detail.variableName : Detail → String
  | invalidSchema n _ => n
  | marshalDefault n _ => n

/-- The type `field.ErrorType`; only `ErrorTypeInvalid` is built here. -/
inductive ErrorType where
  | ErrorTypeInvalid
deriving DecidableEq

/-- The type `field.Error`. -/
structure FieldError where
  Type_ : ErrorType
  Field : FieldPath
  BadValue : String
  Detail : Detail
deriving DecidableEq

/-- The type `field.ErrorList`, a slice of errors. -/
abbrev ErrorList := Slice FieldError

/-- The constructor `field.Invalid(field, value, detail)`. -/
def field.Invalid (fldPath : FieldPath) (value : String) (detail : Detail) : FieldError :=
  { Type_ := .ErrorTypeInvalid, Field := fldPath, BadValue := value, Detail := detail }

/-! ## Name-keyed maps -/

/-- A Go `map[string]V`: at most one entry per key. The entries are listed in the order
their keys were first stored; the order in which `range` visits them is not this one but
a `RangeOrder`. -/
structure GoMap (V : Type) where
  entries : List (String × V)

/-- The entries after the assignment `m[k] = v`: the entry of `k` is replaced if there is
one, and added otherwise. -/
def storeEntry {V : Type} (k : String) (v : V) : List (String × V) → List (String × V)
  | [] => [(k, v)]
  | e :: es => if e.1 = k then (k, v) :: es else e :: storeEntry k v es

/-- The value of the first entry with key `k`. -/
def findEntry {V : Type} (k : String) : List (String × V) → Option V
  | [] => none
  | e :: es => if e.1 = k then some e.2 else findEntry k es

namespace GoMap

/-- The empty map `map[string]V{}`. -/
def empty {V : Type} : GoMap V := ⟨[]⟩

/-- The assignment `m[k] = v`. -/
def store {V : Type} (m : GoMap V) (k : String) (v : V) : GoMap V := ⟨storeEntry k v m.entries⟩

/-- The lookup `v, ok := m[k]`: `some v` when `ok`. -/
def get {V : Type} (m : GoMap V) (k : String) : Option V := findEntry k m.entries

end GoMap

/-- One execution of `for k, v := range m`: the sequence in which the entries of a map
are visited. The language fixes no order; every entry is visited once. -/
structure RangeOrder where
  visit : List (String × clusterv1.ClusterClassVariable) → List (String × clusterv1.ClusterClassVariable)
  visit_perm : ∀ es, (visit es).Perm es

/-- The range order that visits the entries in the order their keys were stored. -/
def RangeOrder.stored : RangeOrder := ⟨id, fun _ => List.Perm.refl _⟩

/-- The range order that visits the entries in the reverse of that order. -/
def RangeOrder.reversed : RangeOrder := ⟨List.reverse, fun es => List.reverse_perm es⟩

/-- Modelled from the spec: `getClusterVariablesMap` is defined in another file of the
package. Section 4.1 has it build the instance-by-name mapping, and section 9 records
that a repeated name is not rejected, the last write winning. -/
def getClusterVariablesMap (clusterVariables : List ClusterVariable) : GoMap ClusterVariable :=
  clusterVariables.foldl (fun m v => m.store v.Name v) GoMap.empty

/-- Modelled from the spec: `getClusterClassVariablesMap` is defined in another file of
the package. Section 4.1 has it build the declaration-by-name mapping, and section 9
records that a repeated name is not rejected, the last write winning. -/
def getClusterClassVariablesMap (clusterClassVariables : List clusterv1.ClusterClassVariable) :
    GoMap clusterv1.ClusterClassVariable :=
  clusterClassVariables.foldl (fun m v => m.store v.Name v) GoMap.empty

/-! ## Schema conversion -/

/-- The helper `convertIntToFloatPointer` of `schema_test.go`: `f := float64(i)`, and a
pointer to `f`. -/
def convertIntToFloatPointer (i : Int) : Option Float64 := some (float64 i)

/-- Modelled from the spec: the decoding of the enum entries by
`convertToAPIExtensionsJSONSchemaProps` (section 4.3), from entry `index` on, stopping at
the first entry that does not decode. -/
def decodeEnum (json : EncodingJSON) : Nat → List JSON → Except ConversionError (List JSONValue)
  | _, [] => .ok []
  | index, e :: es =>
    match json.Unmarshal e.Raw with
    | .error err => .error (.unmarshalEnum index err)
    | .ok v =>
      match decodeEnum json (index + 1) es with
      | .error err => .error err
      | .ok vs => .ok (v :: vs)

/-- Modelled from the spec: the decoding of the default by
`convertToAPIExtensionsJSONSchemaProps` (section 4.3), when the schema has one. -/
def decodeDefault (json : EncodingJSON) : Option JSON → Except ConversionError (Option JSONValue)
  | none => .ok none
  | some d =>
    match json.Unmarshal d.Raw with
    | .error err => .error (.unmarshalDefault err)
    | .ok v => .ok (some v)

/-- Modelled from the spec: `convertToAPIExtensionsJSONSchemaProps` is defined in
`schema.go`, of which only the test is at hand. Section 4.3: type, format, length bounds,
pattern and exclusivity flags copy unchanged; integer minimum and maximum are widened to
floating point; the default, if present, and every enum entry are decoded; the conversion
fails if an encoded field cannot be decoded. -/
def convertToAPIExtensionsJSONSchemaProps (json : EncodingJSON) (schema : clusterv1.JSONSchemaProps) :
    Except ConversionError apiextensions.JSONSchemaProps :=
  match decodeDefault json schema.Default with
  | .error err => .error err
  | .ok default =>
    match decodeEnum json 0 schema.Enum with
    | .error err => .error err
    | .ok enum =>
      .ok {
        Type_ := schema.Type_
        Format := schema.Format
        MaxLength := schema.MaxLength
        MinLength := schema.MinLength
        Pattern := schema.Pattern
        Maximum := schema.Maximum.bind convertIntToFloatPointer
        ExclusiveMaximum := schema.ExclusiveMaximum
        Minimum := schema.Minimum.bind convertIntToFloatPointer
        ExclusiveMinimum := schema.ExclusiveMinimum
        Enum := enum
        Default := default }

/-! ## The defaulting engine -/

/-- The function `defaultClusterVariable`: the variable after the call (the function
writes through its pointer argument) and the returned error list. -/
def defaultClusterVariable (json : EncodingJSON) (clusterVariable : ClusterVariable)
    (clusterClassVariable : clusterv1.ClusterClassVariable) (fldPath : FieldPath) :
    ClusterVariable × ErrorList :=
  match convertToAPIExtensionsJSONSchemaProps json clusterClassVariable.Schema.OpenAPIV3Schema with
  | .error err =>
    (clusterVariable, .mk [field.Invalid fldPath "" (.invalidSchema clusterVariable.Name err)])
  | .ok apiExtensionsSchema =>
    let value : JSONValue :=
      match apiExtensionsSchema.Default with
      | some d => DeepCopyJSONValue d
      | none => .null
    match json.Marshal value with
    | .error err =>
      (clusterVariable, .mk [field.Invalid fldPath "" (.marshalDefault clusterVariable.Name err)])
    | .ok defaultedVariableValue =>
      ({ clusterVariable with Value := { Raw := defaultedVariableValue } }, .nil)

/-- The two variables the loop of `DefaultClusterVariables` updates. -/
structure LoopState where
  defaultedClusterVariables : Slice ClusterVariable
  allErrs : ErrorList

/-- One iteration of the loop of `DefaultClusterVariables`, at the map entry
`(variableName, clusterClassVariable)`. -/
def loopBody (json : EncodingJSON) (clusterVariablesMap : GoMap ClusterVariable) (fldPath : FieldPath)
    (st : LoopState) (entry : String × clusterv1.ClusterClassVariable) : LoopState :=
  let variableName := entry.1
  let clusterClassVariable := entry.2
  match clusterVariablesMap.get variableName with
  | some clusterVariable =>
    { st with defaultedClusterVariables := st.defaultedClusterVariables.append [clusterVariable] }
  | none =>
    match clusterClassVariable.Schema.OpenAPIV3Schema.Default with
    | none => st
    | some _ =>
      let r := defaultClusterVariable json { Name := variableName, Value := { Raw := [] } }
        clusterClassVariable fldPath
      if r.2.len > 0 then
        { st with allErrs := st.allErrs.append r.2.toList }
      else
        { st with defaultedClusterVariables := st.defaultedClusterVariables.append [r.1] }

/-- The function `DefaultClusterVariables`: the returned variables and the returned
errors. -/
def DefaultClusterVariables (json : EncodingJSON) (order : RangeOrder)
    (clusterVariables : List ClusterVariable)
    (clusterClassVariables : List clusterv1.ClusterClassVariable) (fldPath : FieldPath) :
    Slice ClusterVariable × ErrorList :=
  let clusterVariablesMap := getClusterVariablesMap clusterVariables
  let clusterClassVariablesMap := getClusterClassVariablesMap clusterClassVariables
  let st := (order.visit clusterClassVariablesMap.entries).foldl
    (loopBody json clusterVariablesMap fldPath) ⟨.mk [], .nil⟩
  if st.allErrs.len > 0 then (.nil, st.allErrs) else (st.defaultedClusterVariables, .nil)

/-! ## A codec for the scalar documents -/

/-- Whether a byte stands for itself in a JSON string, both when it is read and when
`json.Marshal` writes it: printable ASCII other than the quote, the backslash and the
three characters `<`, `>`, `&` that `json.Marshal` escapes. -/
def plainByte (b : UInt8) : Bool :=
  decide (32 ≤ b.toNat) && decide (b.toNat < 127) && !(b.toNat == 34) && !(b.toNat == 92) &&
    !(b.toNat == 60) && !(b.toNat == 62) && !(b.toNat == 38)

/-- The characters of a string document after its opening quote: plain bytes up to a
closing quote that ends the document. -/
def stringBody : Bytes → Option (List Char)
  | [] => none
  | b :: rest =>
    match rest with
    | [] => if b.toNat = 34 then some [] else none
    | _ :: _ => if plainByte b then (stringBody rest).map (Char.ofNat b.toNat :: ·) else none

/-- The value of a run of decimal digits, given the value `acc` of the digits before
it. -/
def digitsValue : Bytes → Nat → Option Nat
  | [], acc => some acc
  | b :: rest, acc =>
    if 48 ≤ b.toNat ∧ b.toNat ≤ 57 then digitsValue rest (10 * acc + (b.toNat - 48)) else none

/-- The value of a natural-number document: one to fifteen digits, without a leading
zero unless it is the single digit zero. -/
def naturalValue (b : Bytes) : Option Nat :=
  match b with
  | [] => none
  | [d] => digitsValue [d] 0
  | d :: rest => if d.toNat = 48 ∨ 15 < (d :: rest).length then none else digitsValue (d :: rest) 0

/-- The decimal digits of `n`, most significant first, written before `acc`. -/
def decimalDigits : Nat → Nat → Bytes → Bytes
  | 0, _, acc => acc
  | fuel + 1, n, acc =>
    let acc1 := (48 + n % 10).toUInt8 :: acc
    if n < 10 then acc1 else decimalDigits fuel (n / 10) acc1

/-- Decoding of the scalar documents: the literals, integers of up to fifteen digits
(without minus zero), and strings of plain bytes. Every other document, valid JSON or
not, is an error here, with an error text of this codec. -/
def scalarUnmarshal (b : Bytes) : Except String JSONValue :=
  if b = bytes "null" then .ok .null
  else if b = bytes "true" then .ok (.bool true)
  else if b = bytes "false" then .ok (.bool false)
  else
    match b with
    | [] => .error "not a scalar document"
    | c :: rest =>
      if c.toNat = 34 then
        match stringBody rest with
        | some cs => .ok (.string (String.mk cs))
        | none => .error "not a scalar document"
      else if c.toNat = 45 then
        match naturalValue rest with
        | some n => if n = 0 then .error "not a scalar document" else .ok (.number (-(n : Int)))
        | none => .error "not a scalar document"
      else
        match naturalValue (c :: rest) with
        | some n => .ok (.number ((n : Int)))
        | none => .error "not a scalar document"

/-- Encoding of the scalar values that `scalarUnmarshal` yields; every other value is an
error here. -/
def scalarMarshal : JSONValue → Except String Bytes
  | .null => .ok (bytes "null")
  | .bool true => .ok (bytes "true")
  | .bool false => .ok (bytes "false")
  | .number f =>
    if f.den = 1 ∧ f.num.natAbs < 10 ^ 15 then
      .ok ((if f.num < 0 then [45] else []) ++ decimalDigits 16 f.num.natAbs [])
    else .error "not a scalar value"
  | .string s =>
    if (bytes s).all plainByte then .ok ([34] ++ bytes s ++ [34]) else .error "not a scalar value"
  | .array _ => .error "not a scalar value"
  | .object _ => .error "not a scalar value"

/-- A codec that agrees with `encoding/json` on the scalar documents it accepts; it
serves to run the definitions on concrete inputs. -/
def scalarJSON : EncodingJSON := ⟨scalarUnmarshal, scalarMarshal⟩

/-! ## What one map entry contributes -/

/-- The variables one iteration of the loop appends to `defaultedClusterVariables`. -/
def entryVariables (json : EncodingJSON) (clusterVariablesMap : GoMap ClusterVariable)
    (fldPath : FieldPath) (entry : String × clusterv1.ClusterClassVariable) : List ClusterVariable :=
  (loopBody json clusterVariablesMap fldPath ⟨.mk [], .nil⟩ entry).defaultedClusterVariables.toList

/-- The errors one iteration of the loop appends to `allErrs`. -/
def entryErrors (json : EncodingJSON) (clusterVariablesMap : GoMap ClusterVariable)
    (fldPath : FieldPath) (entry : String × clusterv1.ClusterClassVariable) : List FieldError :=
  (loopBody json clusterVariablesMap fldPath ⟨.mk [], .nil⟩ entry).allErrs.toList

/-! ## The inputs of the tests -/

/-- The path `field.NewPath("spec", "topology", "variables")` of the tests. -/
def testPath : FieldPath := ["spec", "topology", "variables"]

/-- The declaration `cpu` of `Test_DefaultClusterVariables`: an integer with default `1`. -/
def cpuVariable : ClusterClassVariable :=
  { Name := "cpu", Required := true,
    Schema := ⟨{ Type_ := "integer", Default := some ⟨bytes "1"⟩ }⟩ }

/-- The declaration `location` of `Test_DefaultClusterVariables`: a string with default
`"us-east"`. -/
def locationVariable : ClusterClassVariable :=
  { Name := "location", Required := true,
    Schema := ⟨{ Type_ := "string", Default := some ⟨bytes "\"us-east\""⟩ }⟩ }

/-- The declaration `correct` of `Test_DefaultClusterVariables`: a boolean with default
`true`. -/
def correctVariable : ClusterClassVariable :=
  { Name := "correct", Required := true,
    Schema := ⟨{ Type_ := "boolean", Default := some ⟨bytes "true"⟩ }⟩ }

/-- The declaration `correct` of the third test case: a boolean without default. -/
def correctWithoutDefault : ClusterClassVariable :=
  { Name := "correct", Required := true, Schema := ⟨{ Type_ := "boolean" }⟩ }

/-- A declaration whose default, `tru`, is not JSON. -/
def malformedVariable : ClusterClassVariable :=
  { Name := "malformed", Required := false,
    Schema := ⟨{ Type_ := "boolean", Default := some ⟨bytes "tru"⟩ }⟩ }

/-- The instance `correct` of the second test case, set to `false`. -/
def correctInstance : ClusterVariable := { Name := "correct", Value := ⟨bytes "false"⟩ }

/-! ## The terms of the error contract -/

/-- Whether `D` undergoes synthesis: no supplied instance bears its name and its schema
carries a default. -/
def needsSynthesis (clusterVariables : List ClusterVariable) (D : ClusterClassVariable) : Bool :=
  clusterVariables.all (fun I => decide (I.Name ≠ D.Name)) && D.Schema.OpenAPIV3Schema.Default.isSome

/-- Whether the synthesis of a value for `D` fails: the conversion of its schema fails, or
the encoding of the value taken from the converted schema does. -/
def synthesisFails (json : EncodingJSON) (D : ClusterClassVariable) : Bool :=
  match convertToAPIExtensionsJSONSchemaProps json D.Schema.OpenAPIV3Schema with
  | .error _ => true
  | .ok apiExtensionsSchema =>
    match json.Marshal (match apiExtensionsSchema.Default with
      | some d => DeepCopyJSONValue d
      | none => .null) with
    | .error _ => true
    | .ok _ => false

/-- Whether a synthesis step of one call failed: some declaration of the declaration map
undergoes synthesis and its synthesis fails. -/
def someStepFailed (json : EncodingJSON) (clusterVariables : List ClusterVariable)
    (clusterClassVariables : List ClusterClassVariable) : Bool :=
  (getClusterClassVariablesMap clusterClassVariables).entries.any fun e =>
    needsSynthesis clusterVariables e.2 && synthesisFails json e.2

/-- The schema `basicSchema` of `Test_convertToAPIExtensionsJSONSchemaProps`. -/
def basicSchema : JSONSchemaProps := { Type_ := "integer" }

/-- The schema `schemaWithMinAndMax` of `Test_convertToAPIExtensionsJSONSchemaProps`. -/
def schemaWithMinAndMax : JSONSchemaProps :=
  { Type_ := "integer", Minimum := some 1, Maximum := some 43 }

/-- The schema of the case `pass for schema with default and enum` of
`Test_convertToAPIExtensionsJSONSchemaProps`. -/
def schemaWithDefaultAndEnum : JSONSchemaProps :=
  { Default := some ⟨bytes "\"defaultValue\""⟩,
    Enum := [⟨bytes "\"enumValue1\""⟩, ⟨bytes "\"enumValue2\""⟩] }

/-! ## Integers that `float64` holds exactly -/

/-- Whether the integer `i` is a `float64`: its magnitude is a significand below `2 ^ 53`
times a power of two. Every integer of magnitude at most `2 ^ 53` is one, and among the
larger ones those whose low bits beyond the 53 leading ones are zero, such as
`2 ^ 53 + 2`, `2 ^ 60` and `-2 ^ 63`. -/
def exactFloat64 (i : Int) : Prop := ∃ m e : Nat, m < 2 ^ 53 ∧ i.natAbs = m * 2 ^ e

/-! # Theorems -/

/-! ## The loop as a pair of concatenations -/

theorem Slice.append_append {α : Type} (s : Slice α) (xs ys : List α) :
    (s.append xs).append ys = s.append (xs ++ ys) := by
  cases s <;> cases xs <;> cases ys <;> simp [Slice.append]

theorem Slice.toList_append {α : Type} (s : Slice α) (xs : List α) :
    (s.append xs).toList = s.toList ++ xs := by
  cases s <;> cases xs <;> simp [Slice.append, Slice.toList]

theorem Slice.len_pos_iff {α : Type} (s : Slice α) : 0 < s.len ↔ s.toList ≠ [] := by
  simp [Slice.len, List.length_pos]

theorem Slice.append_nil_right {α : Type} (s : Slice α) : s.append [] = s := by
  cases s <;> simp [Slice.append]

@[simp] theorem Slice.toList_nil {α : Type} : (Slice.nil : Slice α).toList = [] := rfl

@[simp] theorem Slice.toList_mk {α : Type} (xs : List α) : (Slice.mk xs).toList = xs := rfl

theorem Slice.mk_append {α : Type} (ys xs : List α) : (Slice.mk ys).append xs = .mk (ys ++ xs) := rfl

theorem loopBody_eq (json : EncodingJSON) (m : GoMap ClusterVariable) (p : FieldPath)
    (xs : List ClusterVariable) (errs : ErrorList) (e : String × ClusterClassVariable) :
    loopBody json m p ⟨.mk xs, errs⟩ e =
      ⟨.mk (xs ++ entryVariables json m p e), errs.append (entryErrors json m p e)⟩ := by
  cases hget : m.get e.1 with
  | some v => simp [entryVariables, entryErrors, loopBody, hget, Slice.mk_append, Slice.append_nil_right]
  | none =>
    cases hdef : e.2.Schema.OpenAPIV3Schema.Default with
    | none => simp [entryVariables, entryErrors, loopBody, hget, hdef, Slice.mk_append, Slice.append_nil_right]
    | some d =>
      by_cases h : 0 < (defaultClusterVariable json { Name := e.1, Value := { Raw := [] } } e.2 p).2.len
      · simp [entryVariables, entryErrors, loopBody, hget, hdef, h, Slice.mk_append, Slice.toList_append]
      · simp [entryVariables, entryErrors, loopBody, hget, hdef, h, Slice.mk_append, Slice.append_nil_right]

theorem foldl_loopBody (json : EncodingJSON) (m : GoMap ClusterVariable) (p : FieldPath)
    (es : List (String × ClusterClassVariable)) (xs : List ClusterVariable) (errs : ErrorList) :
    es.foldl (loopBody json m p) ⟨.mk xs, errs⟩ =
      ⟨.mk (xs ++ es.flatMap (entryVariables json m p)), errs.append (es.flatMap (entryErrors json m p))⟩ := by
  induction es generalizing xs errs with
  | nil => simp [Slice.append_nil_right]
  | cons e es ih =>
    rw [List.foldl_cons, loopBody_eq, ih, Slice.append_append]
    simp [List.flatMap_cons, List.append_assoc]

/-! ## Maps built from a list -/

theorem findEntry_storeEntry_self {V : Type} (k : String) (v : V) (l : List (String × V)) :
    findEntry k (storeEntry k v l) = some v := by
  induction l with
  | nil => simp [storeEntry, findEntry]
  | cons e es ih =>
    by_cases h : e.1 = k
    · simp [storeEntry, findEntry, h]
    · simp [storeEntry, findEntry, h, ih]

theorem findEntry_storeEntry_of_ne {V : Type} (k k1 : String) (v : V) (l : List (String × V))
    (hne : k ≠ k1) : findEntry k1 (storeEntry k v l) = findEntry k1 l := by
  induction l with
  | nil => simp [storeEntry, findEntry, hne]
  | cons e es ih =>
    by_cases h : e.1 = k
    · have h1 : e.1 ≠ k1 := by rw [h]; exact hne
      simp [storeEntry, findEntry, h, hne, h1]
    · by_cases h2 : e.1 = k1
      · have h3 : ¬ k1 = k := fun h3 => hne h3.symm
        simp [storeEntry, findEntry, h2, h3]
      · simp [storeEntry, findEntry, h, h2, ih]

theorem storeEntry_of_not_mem {V : Type} (k : String) (v : V) (l : List (String × V))
    (hk : k ∉ l.map Prod.fst) : storeEntry k v l = l ++ [(k, v)] := by
  induction l with
  | nil => simp [storeEntry]
  | cons e es ih =>
    simp only [List.map_cons, List.mem_cons, not_or] at hk
    have h : e.1 ≠ k := fun h => hk.1 h.symm
    simp [storeEntry, h, ih hk.2]

theorem keys_storeEntry_of_mem {V : Type} (k : String) (v : V) (l : List (String × V))
    (hk : k ∈ l.map Prod.fst) : (storeEntry k v l).map Prod.fst = l.map Prod.fst := by
  induction l with
  | nil => simp at hk
  | cons e es ih =>
    by_cases h : e.1 = k
    · simp [storeEntry, h]
    · simp only [List.map_cons, List.mem_cons] at hk
      have hk1 : k ∈ es.map Prod.fst := by
        rcases hk with hk | hk
        · exact absurd hk.symm h
        · exact hk
      simp [storeEntry, h, ih hk1]

theorem nodup_keys_storeEntry {V : Type} (k : String) (v : V) (l : List (String × V))
    (hl : (l.map Prod.fst).Nodup) : ((storeEntry k v l).map Prod.fst).Nodup := by
  by_cases hk : k ∈ l.map Prod.fst
  · rw [keys_storeEntry_of_mem k v l hk]; exact hl
  · rw [storeEntry_of_not_mem k v l hk, List.map_append]
    simp only [List.map_cons, List.map_nil]
    exact List.Nodup.append hl (List.nodup_singleton k) (by simpa using hk)

theorem mem_of_findEntry {V : Type} (k : String) (v : V) (l : List (String × V))
    (h : findEntry k l = some v) : (k, v) ∈ l := by
  induction l with
  | nil => simp [findEntry] at h
  | cons e es ih =>
    by_cases hk : e.1 = k
    · simp only [findEntry, hk, if_true, Option.some.injEq] at h
      have : e = (k, v) := by rw [← hk, ← h]
      simp [this]
    · simp only [findEntry, hk, if_false] at h
      exact List.mem_cons_of_mem _ (ih h)

theorem findEntry_of_mem {V : Type} (k : String) (v : V) (l : List (String × V))
    (hl : (l.map Prod.fst).Nodup) (h : (k, v) ∈ l) : findEntry k l = some v := by
  induction l with
  | nil => simp at h
  | cons e es ih =>
    simp only [List.map_cons, List.nodup_cons] at hl
    rcases List.mem_cons.mp h with h | h
    · subst h; simp [findEntry]
    · have hne : e.1 ≠ k := fun he => hl.1 (by rw [he]; exact List.mem_map_of_mem Prod.fst h)
      simp [findEntry, hne, ih hl.2 h]

theorem findEntry_eq_none_iff {V : Type} (k : String) (l : List (String × V)) :
    findEntry k l = none ↔ k ∉ l.map Prod.fst := by
  induction l with
  | nil => simp [findEntry]
  | cons e es ih =>
    by_cases hk : e.1 = k
    · simp [findEntry, hk]
    · have hk1 : ¬ k = e.1 := fun h => hk h.symm
      simp only [findEntry, hk, if_false, ih, List.map_cons, List.mem_cons, hk1, false_or]

/-- The entries of the map that the two map builders make of a list, by the name of its
elements. -/
theorem entries_foldl_store {V : Type} (name : V → String) (xs : List V) (m : GoMap V) :
    (xs.foldl (fun m v => m.store (name v) v) m).entries =
      xs.foldl (fun l v => storeEntry (name v) v l) m.entries := by
  induction xs generalizing m with
  | nil => rfl
  | cons x xs ih => simp only [List.foldl_cons, ih]; rfl

theorem nodup_keys_foldl {V : Type} (name : V → String) (xs : List V) (l : List (String × V))
    (hl : (l.map Prod.fst).Nodup) :
    ((xs.foldl (fun l v => storeEntry (name v) v l) l).map Prod.fst).Nodup := by
  induction xs generalizing l with
  | nil => exact hl
  | cons x xs ih => exact ih _ (nodup_keys_storeEntry _ _ _ hl)

theorem findEntry_foldl_snoc {V : Type} (name : V → String) (xs : List V) (x : V) (k : String) :
    findEntry k ((xs ++ [x]).foldl (fun l v => storeEntry (name v) v l) []) =
      if name x = k then some x else findEntry k (xs.foldl (fun l v => storeEntry (name v) v l) []) := by
  rw [List.foldl_append]
  simp only [List.foldl_cons, List.foldl_nil]
  by_cases h : name x = k
  · rw [if_pos h, ← h]; exact findEntry_storeEntry_self _ _ _
  · rw [if_neg h]; exact findEntry_storeEntry_of_ne _ _ _ _ h

theorem findEntry_foldl_some {V : Type} (name : V → String) (xs : List V) (k : String) (v : V)
    (h : findEntry k (xs.foldl (fun l v => storeEntry (name v) v l) []) = some v) :
    v ∈ xs ∧ name v = k := by
  induction xs using List.reverseRecOn with
  | nil => simp [findEntry] at h
  | append_singleton xs x ih =>
    rw [findEntry_foldl_snoc] at h
    by_cases hx : name x = k
    · rw [if_pos hx] at h
      cases h
      exact ⟨by simp, hx⟩
    · rw [if_neg hx] at h
      exact ⟨List.mem_append_left _ (ih h).1, (ih h).2⟩

theorem findEntry_foldl_none_iff {V : Type} (name : V → String) (xs : List V) (k : String) :
    findEntry k (xs.foldl (fun l v => storeEntry (name v) v l) []) = none ↔ ∀ x ∈ xs, name x ≠ k := by
  induction xs using List.reverseRecOn with
  | nil => simp [findEntry]
  | append_singleton xs x ih =>
    rw [findEntry_foldl_snoc]
    by_cases hx : name x = k
    · rw [if_pos hx]
      constructor
      · intro h; cases h
      · intro h; exact absurd hx (h x (by simp))
    · simp only [if_neg hx, ih, List.mem_append, List.mem_singleton]
      constructor
      · intro h y hy
        rcases hy with hy | hy
        · exact h y hy
        · rw [hy]; exact hx
      · intro h y hy
        exact h y (Or.inl hy)

theorem findEntry_foldl_of_mem {V : Type} (name : V → String) (xs : List V)
    (hxs : (xs.map name).Nodup) (x : V) (hx : x ∈ xs) :
    findEntry (name x) (xs.foldl (fun l v => storeEntry (name v) v l) []) = some x := by
  induction xs using List.reverseRecOn with
  | nil => simp at hx
  | append_singleton xs y ih =>
    rw [findEntry_foldl_snoc]
    rw [List.map_append, List.nodup_append] at hxs
    by_cases hy : name y = name x
    · rw [if_pos hy]
      rcases List.mem_append.mp hx with hx | hx
      · exfalso
        exact hxs.2.2 (List.mem_map_of_mem name hx) (by simp [hy])
      · rw [List.mem_singleton.mp hx]
    · rw [if_neg hy]
      rcases List.mem_append.mp hx with hx | hx
      · exact ih hxs.1 hx
      · rw [List.mem_singleton.mp hx] at hy
        exact absurd rfl hy

theorem foldl_storeEntry_of_nodup {V : Type} (name : V → String) (xs : List V)
    (hxs : (xs.map name).Nodup) :
    xs.foldl (fun l v => storeEntry (name v) v l) [] = xs.map fun x => (name x, x) := by
  induction xs using List.reverseRecOn with
  | nil => rfl
  | append_singleton xs y ih =>
    rw [List.map_append, List.nodup_append] at hxs
    rw [List.foldl_append, ih hxs.1]
    simp only [List.foldl_cons, List.foldl_nil, List.map_append, List.map_cons, List.map_nil]
    apply storeEntry_of_not_mem
    intro hmem
    have hmem1 : name y ∈ xs.map name := by simpa [List.map_map, Function.comp_def] using hmem
    exact hxs.2.2 hmem1 (by simp)

/-! ## The two functions, case by case -/

mutual
theorem deepCopy_eq_self : ∀ v : JSONValue, DeepCopyJSONValue v = v
  | .null => rfl
  | .bool _ => rfl
  | .number _ => rfl
  | .string _ => rfl
  | .array xs => by rw [DeepCopyJSONValue, deepCopyElems_eq_self xs]
  | .object fs => by rw [DeepCopyJSONValue, deepCopyFields_eq_self fs]
theorem deepCopyElems_eq_self : ∀ xs : List JSONValue, deepCopyElems xs = xs
  | [] => rfl
  | x :: xs => by rw [deepCopyElems, deepCopy_eq_self x, deepCopyElems_eq_self xs]
theorem deepCopyFields_eq_self : ∀ fs : List (String × JSONValue), deepCopyFields fs = fs
  | [] => rfl
  | (k, v) :: fs => by rw [deepCopyFields, deepCopy_eq_self v, deepCopyFields_eq_self fs]
end

/-- The value `defaultClusterVariable` encodes, for a converted schema. -/
theorem defaultClusterVariable_of_convert_error (json : EncodingJSON) (cv : ClusterVariable)
    (D : ClusterClassVariable) (p : FieldPath) (err : ConversionError)
    (h : convertToAPIExtensionsJSONSchemaProps json D.Schema.OpenAPIV3Schema = .error err) :
    defaultClusterVariable json cv D p =
      (cv, .mk [field.Invalid p "" (.invalidSchema cv.Name err)]) := by
  simp [defaultClusterVariable, h]

theorem defaultClusterVariable_of_marshal_error (json : EncodingJSON) (cv : ClusterVariable)
    (D : ClusterClassVariable) (p : FieldPath) (s : apiextensions.JSONSchemaProps) (err : String)
    (h : convertToAPIExtensionsJSONSchemaProps json D.Schema.OpenAPIV3Schema = .ok s)
    (hm : json.Marshal (s.Default.getD .null) = .error err) :
    defaultClusterVariable json cv D p =
      (cv, .mk [field.Invalid p "" (.marshalDefault cv.Name err)]) := by
  cases hd : s.Default with
  | none =>
    rw [hd] at hm
    simp only [Option.getD] at hm
    simp [defaultClusterVariable, h, hd, hm]
  | some d =>
    rw [hd] at hm
    simp only [Option.getD] at hm
    simp [defaultClusterVariable, h, hd, hm, deepCopy_eq_self]

theorem defaultClusterVariable_of_ok (json : EncodingJSON) (cv : ClusterVariable)
    (D : ClusterClassVariable) (p : FieldPath) (s : apiextensions.JSONSchemaProps) (raw : Bytes)
    (h : convertToAPIExtensionsJSONSchemaProps json D.Schema.OpenAPIV3Schema = .ok s)
    (hm : json.Marshal (s.Default.getD .null) = .ok raw) :
    defaultClusterVariable json cv D p = ({ cv with Value := { Raw := raw } }, .nil) := by
  cases hd : s.Default with
  | none =>
    rw [hd] at hm
    simp only [Option.getD] at hm
    simp [defaultClusterVariable, h, hd, hm]
  | some d =>
    rw [hd] at hm
    simp only [Option.getD] at hm
    simp [defaultClusterVariable, h, hd, hm, deepCopy_eq_self]

theorem defaultClusterVariable_name (json : EncodingJSON) (cv : ClusterVariable)
    (D : ClusterClassVariable) (p : FieldPath) :
    (defaultClusterVariable json cv D p).1.Name = cv.Name := by
  cases h : convertToAPIExtensionsJSONSchemaProps json D.Schema.OpenAPIV3Schema with
  | error err => rw [defaultClusterVariable_of_convert_error json cv D p err h]
  | ok s =>
    cases hm : json.Marshal (s.Default.getD .null) with
    | error err => rw [defaultClusterVariable_of_marshal_error json cv D p s err h hm]
    | ok raw => rw [defaultClusterVariable_of_ok json cv D p s raw h hm]

theorem defaultClusterVariable_errors (json : EncodingJSON) (cv : ClusterVariable)
    (D : ClusterClassVariable) (p : FieldPath) :
    (defaultClusterVariable json cv D p).2 = .nil ∨
      ∃ e, (defaultClusterVariable json cv D p).2 = .mk [e] ∧ e.Detail.variableName = cv.Name := by
  cases h : convertToAPIExtensionsJSONSchemaProps json D.Schema.OpenAPIV3Schema with
  | error err =>
    rw [defaultClusterVariable_of_convert_error json cv D p err h]
    exact Or.inr ⟨_, rfl, rfl⟩
  | ok s =>
    cases hm : json.Marshal (s.Default.getD .null) with
    | error err =>
      rw [defaultClusterVariable_of_marshal_error json cv D p s err h hm]
      exact Or.inr ⟨_, rfl, rfl⟩
    | ok raw =>
      rw [defaultClusterVariable_of_ok json cv D p s raw h hm]
      exact Or.inl rfl

theorem entry_of_instance (json : EncodingJSON) (m : GoMap ClusterVariable) (p : FieldPath)
    (e : String × ClusterClassVariable) (I : ClusterVariable) (h : m.get e.1 = some I) :
    entryVariables json m p e = [I] ∧ entryErrors json m p e = [] := by
  simp [entryVariables, entryErrors, loopBody, h, Slice.mk_append]

theorem entry_of_no_default (json : EncodingJSON) (m : GoMap ClusterVariable) (p : FieldPath)
    (e : String × ClusterClassVariable) (h : m.get e.1 = none)
    (hd : e.2.Schema.OpenAPIV3Schema.Default = none) :
    entryVariables json m p e = [] ∧ entryErrors json m p e = [] := by
  simp [entryVariables, entryErrors, loopBody, h, hd]

theorem entry_of_synthesis (json : EncodingJSON) (m : GoMap ClusterVariable) (p : FieldPath)
    (e : String × ClusterClassVariable) (h : m.get e.1 = none) (d : JSON)
    (hd : e.2.Schema.OpenAPIV3Schema.Default = some d) :
    (entryErrors json m p e =
        (defaultClusterVariable json { Name := e.1, Value := { Raw := [] } } e.2 p).2.toList) ∧
      (entryVariables json m p e =
        if (defaultClusterVariable json { Name := e.1, Value := { Raw := [] } } e.2 p).2 = .nil
        then [(defaultClusterVariable json { Name := e.1, Value := { Raw := [] } } e.2 p).1] else []) := by
  rcases defaultClusterVariable_errors json { Name := e.1, Value := { Raw := [] } } e.2 p with h1 | ⟨x, h1, _⟩
  · simp [entryVariables, entryErrors, loopBody, h, hd, h1, Slice.len, Slice.mk_append]
  · simp [entryVariables, entryErrors, loopBody, h, hd, h1, Slice.len, Slice.append]

/-- Every variable an entry contributes carries the key of the entry, when the instance
map is keyed by name. -/
theorem entryVariables_name (json : EncodingJSON) (vs : List ClusterVariable) (p : FieldPath)
    (e : String × ClusterClassVariable) (I : ClusterVariable)
    (hI : I ∈ entryVariables json (getClusterVariablesMap vs) p e) : I.Name = e.1 := by
  cases h : (getClusterVariablesMap vs).get e.1 with
  | some J =>
    rw [(entry_of_instance json _ p e J h).1, List.mem_singleton] at hI
    rw [hI]
    have := findEntry_foldl_some (fun v : ClusterVariable => v.Name) vs e.1 J
      (by rw [← h]; simp only [GoMap.get, getClusterVariablesMap, entries_foldl_store]; rfl)
    exact this.2
  | none =>
    cases hd : e.2.Schema.OpenAPIV3Schema.Default with
    | none => rw [(entry_of_no_default json _ p e h hd).1] at hI; simp at hI
    | some d =>
      rw [(entry_of_synthesis json _ p e h d hd).2] at hI
      split at hI
      · rw [List.mem_singleton] at hI
        rw [hI, defaultClusterVariable_name]
      · simp at hI

theorem entryErrors_name (json : EncodingJSON) (m : GoMap ClusterVariable) (p : FieldPath)
    (e : String × ClusterClassVariable) (x : FieldError)
    (hx : x ∈ entryErrors json m p e) : x.Detail.variableName = e.1 := by
  cases h : m.get e.1 with
  | some J => rw [(entry_of_instance json _ p e J h).2] at hx; simp at hx
  | none =>
    cases hd : e.2.Schema.OpenAPIV3Schema.Default with
    | none => rw [(entry_of_no_default json _ p e h hd).2] at hx; simp at hx
    | some d =>
      rw [(entry_of_synthesis json _ p e h d hd).1] at hx
      rcases defaultClusterVariable_errors json { Name := e.1, Value := { Raw := [] } } e.2 p with h1 | ⟨y, h1, hy⟩
      · rw [h1] at hx; simp at hx
      · rw [h1] at hx
        simp only [Slice.toList_mk, List.mem_singleton] at hx
        rw [hx, hy]

/-- The result of `DefaultClusterVariables` when no entry contributes an error. -/
theorem DefaultClusterVariables_of_no_error (json : EncodingJSON) (order : RangeOrder)
    (vs : List ClusterVariable) (ds : List ClusterClassVariable) (p : FieldPath)
    (h : (order.visit (getClusterClassVariablesMap ds).entries).flatMap
      (entryErrors json (getClusterVariablesMap vs) p) = []) :
    DefaultClusterVariables json order vs ds p =
      (.mk ((order.visit (getClusterClassVariablesMap ds).entries).flatMap
        (entryVariables json (getClusterVariablesMap vs) p)), .nil) := by
  simp [DefaultClusterVariables, foldl_loopBody, h, Slice.append_nil_right, Slice.len]

/-- The result of `DefaultClusterVariables` when some entry contributes an error. -/
theorem DefaultClusterVariables_of_error (json : EncodingJSON) (order : RangeOrder)
    (vs : List ClusterVariable) (ds : List ClusterClassVariable) (p : FieldPath)
    (h : (order.visit (getClusterClassVariablesMap ds).entries).flatMap
      (entryErrors json (getClusterVariablesMap vs) p) ≠ []) :
    DefaultClusterVariables json order vs ds p =
      (.nil, .mk ((order.visit (getClusterClassVariablesMap ds).entries).flatMap
        (entryErrors json (getClusterVariablesMap vs) p))) := by
  have h1 : ∀ xs : List FieldError, xs ≠ [] → (Slice.nil : ErrorList).append xs = .mk xs := by
    intro xs hxs
    cases xs with
    | nil => exact absurd rfl hxs
    | cons x xs => rfl
  simp only [DefaultClusterVariables, foldl_loopBody, h1 _ h, Slice.len, Slice.toList_mk, List.nil_append]
  rw [if_pos (List.length_pos.mpr h)]

/-! ## The two maps of `DefaultClusterVariables` -/

theorem get_instance_of_mem (vs : List ClusterVariable) (hvs : (vs.map fun v => v.Name).Nodup)
    (I : ClusterVariable) (hI : I ∈ vs) : (getClusterVariablesMap vs).get I.Name = some I := by
  simp only [GoMap.get, getClusterVariablesMap, entries_foldl_store]
  exact findEntry_foldl_of_mem (fun v : ClusterVariable => v.Name) vs hvs I hI

theorem get_instance_none_iff (vs : List ClusterVariable) (k : String) :
    (getClusterVariablesMap vs).get k = none ↔ ∀ I ∈ vs, I.Name ≠ k := by
  simp only [GoMap.get, getClusterVariablesMap, entries_foldl_store]
  exact findEntry_foldl_none_iff (fun v : ClusterVariable => v.Name) vs k

theorem get_instance_some (vs : List ClusterVariable) (k : String) (I : ClusterVariable)
    (h : (getClusterVariablesMap vs).get k = some I) : I ∈ vs ∧ I.Name = k := by
  simp only [GoMap.get, getClusterVariablesMap, entries_foldl_store] at h
  exact findEntry_foldl_some (fun v : ClusterVariable => v.Name) vs k I h

theorem nodup_declaration_keys (ds : List ClusterClassVariable) :
    ((getClusterClassVariablesMap ds).entries.map Prod.fst).Nodup := by
  simp only [getClusterClassVariablesMap, entries_foldl_store]
  exact nodup_keys_foldl (fun D : ClusterClassVariable => D.Name) ds [] (by simp [GoMap.empty])

theorem declaration_of_entry (ds : List ClusterClassVariable) (e : String × ClusterClassVariable)
    (he : e ∈ (getClusterClassVariablesMap ds).entries) : e.2 ∈ ds ∧ e.2.Name = e.1 := by
  have hnd := nodup_declaration_keys ds
  have hfind := findEntry_of_mem e.1 e.2 _ hnd he
  simp only [getClusterClassVariablesMap, entries_foldl_store] at hfind
  exact findEntry_foldl_some (fun D : ClusterClassVariable => D.Name) ds e.1 e.2 hfind

theorem entry_of_declaration (ds : List ClusterClassVariable) (D : ClusterClassVariable)
    (hD : D ∈ ds) : ∃ e ∈ (getClusterClassVariablesMap ds).entries, e.1 = D.Name := by
  have h : findEntry D.Name (getClusterClassVariablesMap ds).entries ≠ none := by
    simp only [getClusterClassVariablesMap, entries_foldl_store]
    intro hnone
    exact (findEntry_foldl_none_iff (fun D : ClusterClassVariable => D.Name) ds D.Name).mp hnone D hD rfl
  rw [Ne, findEntry_eq_none_iff, not_not, List.mem_map] at h
  obtain ⟨e, he, hk⟩ := h
  exact ⟨e, he, hk⟩

theorem declaration_entries_of_nodup (ds : List ClusterClassVariable)
    (hds : (ds.map fun D => D.Name).Nodup) :
    (getClusterClassVariablesMap ds).entries = ds.map fun D => (D.Name, D) := by
  simp only [getClusterClassVariablesMap, entries_foldl_store]
  exact foldl_storeEntry_of_nodup (fun D : ClusterClassVariable => D.Name) ds hds

/-! ## Reading the result -/

theorem errors_nil_iff (json : EncodingJSON) (order : RangeOrder)
    (vs : List ClusterVariable) (ds : List ClusterClassVariable) (p : FieldPath) :
    (DefaultClusterVariables json order vs ds p).2 = .nil ↔
      (order.visit (getClusterClassVariablesMap ds).entries).flatMap
        (entryErrors json (getClusterVariablesMap vs) p) = [] := by
  constructor
  · intro h
    by_contra hne
    rw [DefaultClusterVariables_of_error json order vs ds p hne] at h
    cases h
  · intro h
    rw [DefaultClusterVariables_of_no_error json order vs ds p h]

theorem variables_toList_of_no_error (json : EncodingJSON) (order : RangeOrder)
    (vs : List ClusterVariable) (ds : List ClusterClassVariable) (p : FieldPath)
    (h : (DefaultClusterVariables json order vs ds p).2 = .nil) :
    (DefaultClusterVariables json order vs ds p).1 =
      .mk ((order.visit (getClusterClassVariablesMap ds).entries).flatMap
        (entryVariables json (getClusterVariablesMap vs) p)) := by
  rw [DefaultClusterVariables_of_no_error json order vs ds p ((errors_nil_iff json order vs ds p).mp h)]

theorem errors_toList (json : EncodingJSON) (order : RangeOrder)
    (vs : List ClusterVariable) (ds : List ClusterClassVariable) (p : FieldPath) :
    (DefaultClusterVariables json order vs ds p).2.toList =
      (order.visit (getClusterClassVariablesMap ds).entries).flatMap
        (entryErrors json (getClusterVariablesMap vs) p) := by
  by_cases h : (order.visit (getClusterClassVariablesMap ds).entries).flatMap
      (entryErrors json (getClusterVariablesMap vs) p) = []
  · rw [DefaultClusterVariables_of_no_error json order vs ds p h, h]; rfl
  · rw [DefaultClusterVariables_of_error json order vs ds p h]; rfl

theorem mem_variables_toList (json : EncodingJSON) (order : RangeOrder)
    (vs : List ClusterVariable) (ds : List ClusterClassVariable) (p : FieldPath)
    (x : ClusterVariable) (hx : x ∈ (DefaultClusterVariables json order vs ds p).1.toList) :
    ∃ e ∈ (getClusterClassVariablesMap ds).entries,
      x ∈ entryVariables json (getClusterVariablesMap vs) p e := by
  by_cases h : (order.visit (getClusterClassVariablesMap ds).entries).flatMap
      (entryErrors json (getClusterVariablesMap vs) p) = []
  · rw [DefaultClusterVariables_of_no_error json order vs ds p h] at hx
    simp only [Slice.toList_mk, List.mem_flatMap] at hx
    obtain ⟨e, he, hxe⟩ := hx
    exact ⟨e, (order.visit_perm _).mem_iff.mp he, hxe⟩
  · rw [DefaultClusterVariables_of_error json order vs ds p h] at hx
    simp at hx

/-- Among the contributions of entries with distinct keys, those that carry the key of one
entry are the contribution of that entry. -/
theorem filter_flatMap_key {α β : Type} (key : α → String) (name : β → String) (f : α → List β)
    (es : List α) (hf : ∀ e ∈ es, ∀ x ∈ f e, name x = key e) (hnd : (es.map key).Nodup)
    (e0 : α) (he0 : e0 ∈ es) :
    (es.flatMap f).filter (fun x => name x = key e0) = f e0 := by
  induction es with
  | nil => simp at he0
  | cons e es ih =>
    simp only [List.map_cons, List.nodup_cons] at hnd
    rw [List.flatMap_cons, List.filter_append]
    have hrest : ∀ e1 ∈ es, ∀ x ∈ f e1, name x = key e1 :=
      fun e1 h1 => hf e1 (List.mem_cons_of_mem _ h1)
    rcases List.mem_cons.mp he0 with h | h
    · subst h
      have h1 : (f e0).filter (fun x => name x = key e0) = f e0 := by
        apply List.filter_eq_self.mpr
        intro x hx
        simpa using hf e0 (List.mem_cons_self _ _) x hx
      have h2 : (es.flatMap f).filter (fun x => name x = key e0) = [] := by
        apply List.filter_eq_nil_iff.mpr
        intro x hx
        obtain ⟨e1, he1, hx1⟩ := List.mem_flatMap.mp hx
        have hk : key e1 ≠ key e0 := fun hk => hnd.1 (hk ▸ List.mem_map_of_mem key he1)
        simpa [hrest e1 he1 x hx1] using hk
      rw [h1, h2, List.append_nil]
    · have hk : key e ≠ key e0 := fun hk => hnd.1 (hk ▸ List.mem_map_of_mem key h)
      have h1 : (f e).filter (fun x => name x = key e0) = [] := by
        apply List.filter_eq_nil_iff.mpr
        intro x hx
        simpa [hf e (List.mem_cons_self _ _) x hx] using hk
      rw [h1, List.nil_append, ih hrest hnd.2 h]

/-! ## Keep, synthesize, omit -/

/-- C1: when the instance names are unique and `DefaultClusterVariables` returns no
errors, every input instance `I` whose name is the name of a declaration `D` is an element
of the result, with the name and the raw value it came with; nothing is asked of the
default of `D`, nor of the names of the declarations. -/
theorem C1_supplied_instance_is_kept (json : EncodingJSON) (order : RangeOrder)
    (vs : List ClusterVariable) (ds : List ClusterClassVariable) (p : FieldPath)
    (hvs : (vs.map fun v => v.Name).Nodup)
    (hok : (DefaultClusterVariables json order vs ds p).2 = .nil)
    (D : ClusterClassVariable) (hD : D ∈ ds) (I : ClusterVariable) (hI : I ∈ vs)
    (hname : I.Name = D.Name) :
    I ∈ (DefaultClusterVariables json order vs ds p).1.toList := by
  rw [variables_toList_of_no_error json order vs ds p hok, Slice.toList_mk, List.mem_flatMap]
  obtain ⟨e, he, hk⟩ := entry_of_declaration ds D hD
  refine ⟨e, (order.visit_perm _).mem_iff.mpr he, ?_⟩
  have hget : (getClusterVariablesMap vs).get e.1 = some I := by
    rw [hk, ← hname]
    exact get_instance_of_mem vs hvs I hI
  rw [(entry_of_instance json _ p e I hget).1]
  exact List.mem_singleton.mpr rfl

/-- A run for C1: the second case of `Test_DefaultClusterVariables`, with a declaration
added whose default is not JSON but whose instance is supplied. -/
theorem C1_supplied_instance_is_kept_witness :
    (DefaultClusterVariables scalarJSON .reversed
        [correctInstance, ⟨"malformed", ⟨bytes "7"⟩⟩]
        [cpuVariable, correctVariable, malformedVariable] testPath).2 = .nil ∧
      correctInstance ∈ (DefaultClusterVariables scalarJSON .reversed
        [correctInstance, ⟨"malformed", ⟨bytes "7"⟩⟩]
        [cpuVariable, correctVariable, malformedVariable] testPath).1.toList ∧
      (⟨"malformed", ⟨bytes "7"⟩⟩ : ClusterVariable) ∈ (DefaultClusterVariables scalarJSON .reversed
        [correctInstance, ⟨"malformed", ⟨bytes "7"⟩⟩]
        [cpuVariable, correctVariable, malformedVariable] testPath).1.toList :=
  ⟨by decide,
    C1_supplied_instance_is_kept scalarJSON .reversed _ _ testPath (by decide) (by decide)
      correctVariable (by decide) correctInstance (by decide) (by decide),
    C1_supplied_instance_is_kept scalarJSON .reversed _ _ testPath (by decide) (by decide)
      malformedVariable (by decide) _ (by decide) (by decide)⟩

theorem convert_ok_default (json : EncodingJSON) (schema : JSONSchemaProps)
    (s : apiextensions.JSONSchemaProps)
    (h : convertToAPIExtensionsJSONSchemaProps json schema = .ok s) :
    decodeDefault json schema.Default = .ok s.Default ∧ decodeEnum json 0 schema.Enum = .ok s.Enum := by
  unfold convertToAPIExtensionsJSONSchemaProps at h
  cases hd : decodeDefault json schema.Default with
  | error err => rw [hd] at h; simp at h
  | ok d =>
    cases hen : decodeEnum json 0 schema.Enum with
    | error err => rw [hd, hen] at h; simp at h
    | ok en =>
      rw [hd, hen] at h
      simp only [Except.ok.injEq] at h
      rw [← h]
      exact ⟨rfl, rfl⟩

theorem decodeDefault_some_ok (json : EncodingJSON) (V : JSON) (d : Option JSONValue)
    (h : decodeDefault json (some V) = .ok d) : ∃ v, json.Unmarshal V.Raw = .ok v ∧ d = some v := by
  simp only [decodeDefault] at h
  cases hu : json.Unmarshal V.Raw with
  | error err => rw [hu] at h; simp at h
  | ok v =>
    rw [hu] at h
    simp only [Except.ok.injEq] at h
    exact ⟨v, rfl, h.symm⟩

/-- When `defaultClusterVariable` returns no error for a declaration with default `V`, the
value it writes is the encoding of the decoded `V`. -/
theorem defaultClusterVariable_of_nil (json : EncodingJSON) (cv : ClusterVariable)
    (D : ClusterClassVariable) (p : FieldPath) (V : JSON)
    (hV : D.Schema.OpenAPIV3Schema.Default = some V)
    (h : (defaultClusterVariable json cv D p).2 = .nil) :
    ∃ v raw, json.Unmarshal V.Raw = .ok v ∧ json.Marshal v = .ok raw ∧
      (defaultClusterVariable json cv D p).1 = { cv with Value := { Raw := raw } } := by
  cases hc : convertToAPIExtensionsJSONSchemaProps json D.Schema.OpenAPIV3Schema with
  | error err =>
    rw [defaultClusterVariable_of_convert_error json cv D p err hc] at h
    cases h
  | ok s =>
    cases hm : json.Marshal (s.Default.getD .null) with
    | error err =>
      rw [defaultClusterVariable_of_marshal_error json cv D p s err hc hm] at h
      cases h
    | ok raw =>
      have hdec := (convert_ok_default json _ s hc).1
      rw [hV] at hdec
      obtain ⟨v, hv, hsv⟩ := decodeDefault_some_ok json V _ hdec
      rw [hsv] at hm
      exact ⟨v, raw, hv, hm, by rw [defaultClusterVariable_of_ok json cv D p s raw hc (by rw [hsv]; exact hm)]⟩

/-- C2: when the declaration names are unique and `DefaultClusterVariables` returns no
errors, a declaration `D` without instance and with default `V` has exactly one instance
named `D.Name` in the result; its value is the encoding of the decoded `V`, and it decodes
to the value `V` decodes to, provided `encoding/json` decodes its own encoding of that
value back to it. -/
theorem C2_default_is_synthesized (json : EncodingJSON) (order : RangeOrder)
    (vs : List ClusterVariable) (ds : List ClusterClassVariable) (p : FieldPath)
    (hds : (ds.map fun D => D.Name).Nodup)
    (hok : (DefaultClusterVariables json order vs ds p).2 = .nil)
    (D : ClusterClassVariable) (hD : D ∈ ds) (hno : ∀ I ∈ vs, I.Name ≠ D.Name)
    (V : JSON) (hV : D.Schema.OpenAPIV3Schema.Default = some V)
    (hjson : ∀ v raw, json.Unmarshal V.Raw = .ok v → json.Marshal v = .ok raw →
      json.Unmarshal raw = .ok v) :
    ∃ I v, (DefaultClusterVariables json order vs ds p).1.toList.filter
        (fun x => x.Name = D.Name) = [I] ∧
      I.Name = D.Name ∧ json.Unmarshal V.Raw = .ok v ∧ json.Marshal v = .ok I.Value.Raw ∧
      json.Unmarshal I.Value.Raw = .ok v := by
  have herrs := (errors_nil_iff json order vs ds p).mp hok
  have hmem : (D.Name, D) ∈ order.visit (getClusterClassVariablesMap ds).entries := by
    rw [(order.visit_perm _).mem_iff, declaration_entries_of_nodup ds hds]
    exact List.mem_map_of_mem _ hD
  have hget : (getClusterVariablesMap vs).get D.Name = none :=
    (get_instance_none_iff vs D.Name).mpr hno
  have hsyn := entry_of_synthesis json (getClusterVariablesMap vs) p (D.Name, D) hget V hV
  have hnil : (defaultClusterVariable json { Name := D.Name, Value := { Raw := [] } } D p).2 = .nil := by
    have h0 : entryErrors json (getClusterVariablesMap vs) p (D.Name, D) = [] := by
      apply List.eq_nil_iff_forall_not_mem.mpr
      intro x hx
      have : x ∈ (order.visit (getClusterClassVariablesMap ds).entries).flatMap
          (entryErrors json (getClusterVariablesMap vs) p) := List.mem_flatMap.mpr ⟨_, hmem, hx⟩
      rw [herrs] at this
      simp at this
    rw [hsyn.1] at h0
    rcases defaultClusterVariable_errors json { Name := D.Name, Value := { Raw := [] } } D p with h1 | ⟨x, h1, _⟩
    · exact h1
    · rw [h1] at h0; simp at h0
  obtain ⟨v, raw, hv, hm, hcv⟩ := defaultClusterVariable_of_nil json _ D p V hV hnil
  refine ⟨⟨D.Name, ⟨raw⟩⟩, v, ?_, rfl, hv, hm, hjson v raw hv hm⟩
  rw [variables_toList_of_no_error json order vs ds p hok, Slice.toList_mk]
  have hkeys : ((order.visit (getClusterClassVariablesMap ds).entries).map Prod.fst).Nodup :=
    ((order.visit_perm _).map Prod.fst).nodup_iff.mpr (nodup_declaration_keys ds)
  have hfilter := filter_flatMap_key Prod.fst (fun x : ClusterVariable => x.Name)
    (entryVariables json (getClusterVariablesMap vs) p)
    (order.visit (getClusterClassVariablesMap ds).entries)
    (fun e _ x hx => entryVariables_name json vs p e x hx) hkeys (D.Name, D) hmem
  rw [hfilter, hsyn.2, if_pos hnil, hcv]

/-- A run for C2: the first case of `Test_DefaultClusterVariables` (without the declaration
`count`, whose default is not an integer). -/
theorem C2_default_is_synthesized_witness :
    (DefaultClusterVariables scalarJSON .reversed []
        [cpuVariable, locationVariable, correctVariable] testPath).2 = .nil ∧
      ∃ I v, (DefaultClusterVariables scalarJSON .reversed []
          [cpuVariable, locationVariable, correctVariable] testPath).1.toList.filter
          (fun x => x.Name = locationVariable.Name) = [I] ∧
        I.Name = locationVariable.Name ∧
        scalarJSON.Unmarshal (bytes "\"us-east\"") = .ok v ∧
        scalarJSON.Marshal v = .ok I.Value.Raw ∧
        scalarJSON.Unmarshal I.Value.Raw = .ok v :=
  ⟨by decide,
    C2_default_is_synthesized scalarJSON .reversed [] _ testPath (by decide) (by decide)
      locationVariable (by decide) (by simp) ⟨bytes "\"us-east\""⟩ rfl
      (by
        intro v raw hv hm
        have hv1 : v = .string "us-east" := by
          have h1 : scalarJSON.Unmarshal (bytes "\"us-east\"") = .ok (.string "us-east") := by rfl
          rw [h1] at hv
          exact (Except.ok.inj hv).symm
        subst hv1
        have hm1 : raw = bytes "\"us-east\"" := by
          have h2 : scalarJSON.Marshal (.string "us-east") = .ok (bytes "\"us-east\"") := by rfl
          rw [h2] at hm
          exact (Except.ok.inj hm).symm
        subst hm1
        rfl)⟩

/-- A name that no instance bears, and that only declarations without default bear, is
the name of no variable of the result and of no error. -/
theorem nothing_for_name_without_default (json : EncodingJSON) (order : RangeOrder)
    (vs : List ClusterVariable) (ds : List ClusterClassVariable) (p : FieldPath) (n : String)
    (hno : ∀ I ∈ vs, I.Name ≠ n)
    (hdef : ∀ D ∈ ds, D.Name = n → D.Schema.OpenAPIV3Schema.Default = none) :
    (∀ I ∈ (DefaultClusterVariables json order vs ds p).1.toList, I.Name ≠ n) ∧
      (∀ x ∈ (DefaultClusterVariables json order vs ds p).2.toList, x.Detail.variableName ≠ n) := by
  have hentry : ∀ e ∈ (getClusterClassVariablesMap ds).entries, e.1 = n →
      entryVariables json (getClusterVariablesMap vs) p e = [] ∧
        entryErrors json (getClusterVariablesMap vs) p e = [] := by
    intro e he hk
    have hd := declaration_of_entry ds e he
    apply entry_of_no_default
    · rw [hk]; exact (get_instance_none_iff vs n).mpr hno
    · exact hdef e.2 hd.1 (by rw [hd.2, hk])
  constructor
  · intro I hI hname
    obtain ⟨e, he, hIe⟩ := mem_variables_toList json order vs ds p I hI
    have hk : e.1 = n := by rw [← entryVariables_name json vs p e I hIe, hname]
    rw [(hentry e he hk).1] at hIe
    simp at hIe
  · intro x hx hname
    rw [errors_toList, List.mem_flatMap] at hx
    obtain ⟨e, he, hxe⟩ := hx
    have he1 := (order.visit_perm _).mem_iff.mp he
    have hk : e.1 = n := by rw [← entryErrors_name json _ p e x hxe, hname]
    rw [(hentry e he1 hk).2] at hxe
    simp at hxe

/-- C3, as amended: when the declaration names are unique, a declaration `D` that has no
instance of its name in the input and whose schema has no default has no instance named
`D.Name` in the result, and no returned error quotes `D.Name`. -/
theorem C3_no_default_no_instance (json : EncodingJSON) (order : RangeOrder)
    (vs : List ClusterVariable) (ds : List ClusterClassVariable) (p : FieldPath)
    (hds : (ds.map fun D => D.Name).Nodup)
    (D : ClusterClassVariable) (hD : D ∈ ds) (hno : ∀ I ∈ vs, I.Name ≠ D.Name)
    (hdef : D.Schema.OpenAPIV3Schema.Default = none) :
    (∀ I ∈ (DefaultClusterVariables json order vs ds p).1.toList, I.Name ≠ D.Name) ∧
      (∀ x ∈ (DefaultClusterVariables json order vs ds p).2.toList,
        x.Detail.variableName ≠ D.Name) := by
  apply nothing_for_name_without_default json order vs ds p D.Name hno
  intro D1 hD1 hname
  have : D1 = D := List.inj_on_of_nodup_map hds hD1 hD hname
  rw [this]
  exact hdef

/-- A run for C3: the third case of `Test_DefaultClusterVariables`. -/
theorem C3_no_default_no_instance_witness :
    DefaultClusterVariables scalarJSON .stored [] [cpuVariable, correctWithoutDefault] testPath =
        (.mk [⟨"cpu", ⟨bytes "1"⟩⟩], .nil) ∧
      (∀ I ∈ (DefaultClusterVariables scalarJSON .stored [] [cpuVariable, correctWithoutDefault]
        testPath).1.toList, I.Name ≠ "correct") ∧
      (∀ x ∈ (DefaultClusterVariables scalarJSON .stored [] [cpuVariable, correctWithoutDefault]
        testPath).2.toList, x.Detail.variableName ≠ "correct") :=
  ⟨by decide,
    C3_no_default_no_instance scalarJSON .stored [] [cpuVariable, correctWithoutDefault] testPath
      (by decide) correctWithoutDefault (by decide) (by simp) rfl⟩

/-- C3 as stated fails on an input that repeats a declaration name: `correct` is declared
without default and declared again with default `true` (and, in the second input, with a
default that is not JSON); no instance is supplied. The declaration without default has
no instance and no default, yet the result has an instance named `correct`, and in the
second input an error quotes `correct`. -/
theorem C3_repeated_name_counterexample :
    correctWithoutDefault ∈ [correctWithoutDefault, correctVariable] ∧
      correctWithoutDefault.Schema.OpenAPIV3Schema.Default = none ∧
      (∀ order : RangeOrder,
        DefaultClusterVariables scalarJSON order [] [correctWithoutDefault, correctVariable] testPath =
          (.mk [⟨"correct", ⟨bytes "true"⟩⟩], .nil)) ∧
      (∀ order : RangeOrder,
        DefaultClusterVariables scalarJSON order []
            [correctWithoutDefault, { malformedVariable with Name := "correct" }] testPath =
          (.nil, .mk [field.Invalid testPath ""
            (.invalidSchema "correct" (.unmarshalDefault "not a scalar document"))])) := by
  refine ⟨by decide, rfl, ?_, ?_⟩
  · intro order
    have hperm := order.visit_perm [("correct", correctVariable)]
    have hv : order.visit [("correct", correctVariable)] = [("correct", correctVariable)] :=
      List.perm_singleton.mp hperm
    have hm : (getClusterClassVariablesMap [correctWithoutDefault, correctVariable]).entries =
        [("correct", correctVariable)] := by decide
    simp only [DefaultClusterVariables, hm, hv]
    decide
  · intro order
    have hperm := order.visit_perm [("correct", { malformedVariable with Name := "correct" })]
    have hv := List.perm_singleton.mp hperm
    have hm : (getClusterClassVariablesMap
        [correctWithoutDefault, { malformedVariable with Name := "correct" }]).entries =
        [("correct", { malformedVariable with Name := "correct" })] := by decide
    simp only [DefaultClusterVariables, hm, hv]
    decide

/-- C4: every instance of the result bears the name of a declaration; an input instance
whose name no declaration bears is not in the result; with no declaration the result is
the empty, non-nil list and there is no error, whatever instances are supplied. -/
theorem C4_only_declared_names (json : EncodingJSON) (order : RangeOrder)
    (vs : List ClusterVariable) (ds : List ClusterClassVariable) (p : FieldPath) :
    (∀ I ∈ (DefaultClusterVariables json order vs ds p).1.toList, ∃ D ∈ ds, D.Name = I.Name) ∧
      (∀ I ∈ vs, (∀ D ∈ ds, D.Name ≠ I.Name) →
        I ∉ (DefaultClusterVariables json order vs ds p).1.toList) ∧
      DefaultClusterVariables json order vs [] p = (.mk [], .nil) := by
  have h1 : ∀ I ∈ (DefaultClusterVariables json order vs ds p).1.toList, ∃ D ∈ ds, D.Name = I.Name := by
    intro I hI
    obtain ⟨e, he, hIe⟩ := mem_variables_toList json order vs ds p I hI
    have hd := declaration_of_entry ds e he
    exact ⟨e.2, hd.1, by rw [hd.2, entryVariables_name json vs p e I hIe]⟩
  refine ⟨h1, ?_, ?_⟩
  · intro I _ hnone hI
    obtain ⟨D, hD, hname⟩ := h1 I hI
    exact hnone D hD hname
  · have hv : order.visit (getClusterClassVariablesMap []).entries = [] :=
      List.perm_nil.mp (order.visit_perm _)
    simp [DefaultClusterVariables, hv, Slice.len]

/-! ## Errors -/

theorem needsSynthesis_iff (vs : List ClusterVariable) (D : ClusterClassVariable) :
    needsSynthesis vs D = true ↔
      (getClusterVariablesMap vs).get D.Name = none ∧ D.Schema.OpenAPIV3Schema.Default ≠ none := by
  rw [get_instance_none_iff]
  simp [needsSynthesis, Option.isSome_iff_ne_none]

theorem synthesisFails_iff (json : EncodingJSON) (cv : ClusterVariable) (D : ClusterClassVariable)
    (p : FieldPath) :
    (synthesisFails json D = true ↔ ∃ x, (defaultClusterVariable json cv D p).2 = .mk [x]) ∧
      (synthesisFails json D = false ↔ (defaultClusterVariable json cv D p).2 = .nil) := by
  cases hc : convertToAPIExtensionsJSONSchemaProps json D.Schema.OpenAPIV3Schema with
  | error err =>
    rw [defaultClusterVariable_of_convert_error json cv D p err hc]
    simp [synthesisFails, hc]
  | ok s =>
    have hval : (match s.Default with
        | some d => DeepCopyJSONValue d
        | none => JSONValue.null) = s.Default.getD .null := by
      cases s.Default with
      | none => rfl
      | some d => exact deepCopy_eq_self d
    cases hm : json.Marshal (s.Default.getD .null) with
    | error err =>
      rw [defaultClusterVariable_of_marshal_error json cv D p s err hc hm]
      simp [synthesisFails, hc, hval, hm]
    | ok raw =>
      rw [defaultClusterVariable_of_ok json cv D p s raw hc hm]
      simp [synthesisFails, hc, hval, hm]

/-- The errors one entry of the declaration map contributes: one if its declaration
undergoes synthesis and the synthesis fails, none otherwise. -/
theorem entryErrors_length (json : EncodingJSON) (vs : List ClusterVariable) (p : FieldPath)
    (e : String × ClusterClassVariable) (hk : e.2.Name = e.1) :
    (entryErrors json (getClusterVariablesMap vs) p e).length =
      if needsSynthesis vs e.2 && synthesisFails json e.2 then 1 else 0 := by
  cases hget : (getClusterVariablesMap vs).get e.1 with
  | some I =>
    have hn : needsSynthesis vs e.2 = false := by
      rw [← Bool.not_eq_true, needsSynthesis_iff, hk, hget]
      simp
    rw [(entry_of_instance json _ p e I hget).2, hn]
    rfl
  | none =>
    cases hd : e.2.Schema.OpenAPIV3Schema.Default with
    | none =>
      have hn : needsSynthesis vs e.2 = false := by
        rw [← Bool.not_eq_true, needsSynthesis_iff, hd]
        simp
      rw [(entry_of_no_default json _ p e hget hd).2, hn]
      rfl
    | some d =>
      have hn : needsSynthesis vs e.2 = true := by
        rw [needsSynthesis_iff, hk, hget, hd]
        simp
      rw [(entry_of_synthesis json _ p e hget d hd).1, hn]
      cases hf : synthesisFails json e.2 with
      | true =>
        obtain ⟨x, hx⟩ := (synthesisFails_iff json { Name := e.1, Value := { Raw := [] } } e.2 p).1.mp hf
        rw [hx]
        rfl
      | false =>
        rw [(synthesisFails_iff json { Name := e.1, Value := { Raw := [] } } e.2 p).2.mp hf]
        rfl

theorem someStepFailed_iff (json : EncodingJSON) (order : RangeOrder)
    (vs : List ClusterVariable) (ds : List ClusterClassVariable) (p : FieldPath) :
    someStepFailed json vs ds = true ↔
      (order.visit (getClusterClassVariablesMap ds).entries).flatMap
        (entryErrors json (getClusterVariablesMap vs) p) ≠ [] := by
  rw [someStepFailed, List.any_eq_true, Ne, List.eq_nil_iff_forall_not_mem]
  constructor
  · rintro ⟨e, he, hf⟩ hall
    have hlen := entryErrors_length json vs p e (declaration_of_entry ds e he).2
    rw [hf, if_pos rfl] at hlen
    obtain ⟨x, hx⟩ := List.exists_mem_of_length_pos (by rw [hlen]; exact Nat.one_pos)
    exact hall x (List.mem_flatMap.mpr ⟨e, (order.visit_perm _).mem_iff.mpr he, hx⟩)
  · intro hne
    by_contra hnone
    apply hne
    intro x hx
    obtain ⟨e, he, hxe⟩ := List.mem_flatMap.mp hx
    have he1 := (order.visit_perm _).mem_iff.mp he
    have hlen := entryErrors_length json vs p e (declaration_of_entry ds e he1).2
    have hf : ¬ ((needsSynthesis vs e.2 && synthesisFails json e.2) = true) :=
      fun hf => hnone ⟨e, he1, hf⟩
    rw [if_neg hf] at hlen
    rw [List.length_eq_zero] at hlen
    rw [hlen] at hxe
    simp at hxe

/-- C5: `DefaultClusterVariables` returns a result or errors, never both and never
neither. If a synthesis step failed, the variable list is nil and the error list is
non-nil with at least one error; if none failed, the error list is nil and the variable
list is non-nil. -/
theorem C5_result_or_errors (json : EncodingJSON) (order : RangeOrder)
    (vs : List ClusterVariable) (ds : List ClusterClassVariable) (p : FieldPath) :
    (someStepFailed json vs ds = true →
        (DefaultClusterVariables json order vs ds p).1 = .nil ∧
        (DefaultClusterVariables json order vs ds p).2 ≠ .nil ∧
        0 < (DefaultClusterVariables json order vs ds p).2.len) ∧
      (someStepFailed json vs ds = false →
        (DefaultClusterVariables json order vs ds p).2 = .nil ∧
        ∃ xs, (DefaultClusterVariables json order vs ds p).1 = .mk xs) := by
  constructor
  · intro hf
    have hne := (someStepFailed_iff json order vs ds p).mp hf
    rw [DefaultClusterVariables_of_error json order vs ds p hne]
    refine ⟨rfl, by simp, ?_⟩
    simp only [Slice.len, Slice.toList_mk]
    exact List.length_pos.mpr hne
  · intro hf
    have hnil : (order.visit (getClusterClassVariablesMap ds).entries).flatMap
        (entryErrors json (getClusterVariablesMap vs) p) = [] := by
      by_contra hne
      rw [(someStepFailed_iff json order vs ds p).mpr hne] at hf
      cases hf
    rw [DefaultClusterVariables_of_no_error json order vs ds p hnil]
    exact ⟨rfl, _, rfl⟩

/-- Two runs for C5: one malformed default among three declarations withholds the whole
result; without it the result is returned and the error list is nil. -/
theorem C5_result_or_errors_runs :
    DefaultClusterVariables scalarJSON .stored [correctInstance]
        [cpuVariable, malformedVariable, correctVariable] testPath =
      (.nil, .mk [field.Invalid testPath ""
        (.invalidSchema "malformed" (.unmarshalDefault "not a scalar document"))]) ∧
    DefaultClusterVariables scalarJSON .stored [correctInstance]
        [cpuVariable, correctVariable] testPath =
      (.mk [⟨"cpu", ⟨bytes "1"⟩⟩, correctInstance], .nil) ∧
    DefaultClusterVariables scalarJSON .stored [] [correctWithoutDefault] testPath =
      (.mk [], .nil) := by
  decide

/-- C6: when the declaration names are unique, the returned errors hold, for each
declaration `D`, exactly one error quoting `D.Name` if `D` undergoes synthesis and its
synthesis fails, and none otherwise; every returned error quotes the name of a
declaration; and `defaultClusterVariable` returns one error when the synthesis fails and
none when it does not. -/
theorem C6_one_error_per_failing_declaration (json : EncodingJSON) (order : RangeOrder)
    (vs : List ClusterVariable) (ds : List ClusterClassVariable) (p : FieldPath)
    (hds : (ds.map fun D => D.Name).Nodup) :
    (∀ D ∈ ds, ((DefaultClusterVariables json order vs ds p).2.toList.filter
        (fun x => x.Detail.variableName = D.Name)).length =
          if needsSynthesis vs D && synthesisFails json D then 1 else 0) ∧
      (∀ x ∈ (DefaultClusterVariables json order vs ds p).2.toList,
        ∃ D ∈ ds, x.Detail.variableName = D.Name) ∧
      (∀ D ∈ ds, (defaultClusterVariable json { Name := D.Name, Value := { Raw := [] } } D p).2.len =
        if synthesisFails json D then 1 else 0) := by
  refine ⟨?_, ?_, ?_⟩
  · intro D hD
    have hmem : (D.Name, D) ∈ order.visit (getClusterClassVariablesMap ds).entries := by
      rw [(order.visit_perm _).mem_iff, declaration_entries_of_nodup ds hds]
      exact List.mem_map_of_mem _ hD
    have hkeys : ((order.visit (getClusterClassVariablesMap ds).entries).map Prod.fst).Nodup :=
      ((order.visit_perm _).map Prod.fst).nodup_iff.mpr (nodup_declaration_keys ds)
    have hfilter := filter_flatMap_key Prod.fst (fun x : FieldError => x.Detail.variableName)
      (entryErrors json (getClusterVariablesMap vs) p)
      (order.visit (getClusterClassVariablesMap ds).entries)
      (fun e _ x hx => entryErrors_name json _ p e x hx) hkeys (D.Name, D) hmem
    rw [errors_toList, hfilter]
    exact entryErrors_length json vs p (D.Name, D) rfl
  · intro x hx
    rw [errors_toList, List.mem_flatMap] at hx
    obtain ⟨e, he, hxe⟩ := hx
    have hd := declaration_of_entry ds e ((order.visit_perm _).mem_iff.mp he)
    exact ⟨e.2, hd.1, by rw [hd.2, entryErrors_name json _ p e x hxe]⟩
  · intro D _
    cases hf : synthesisFails json D with
    | true =>
      obtain ⟨x, hx⟩ := (synthesisFails_iff json { Name := D.Name, Value := { Raw := [] } } D p).1.mp hf
      rw [hx]
      rfl
    | false =>
      rw [(synthesisFails_iff json { Name := D.Name, Value := { Raw := [] } } D p).2.mp hf]
      rfl

/-- A run for C6: two declarations with malformed defaults and no instance give two
errors, while a third malformed declaration whose instance is supplied and a declaration
without default give none. -/
theorem C6_one_error_per_failing_declaration_witness :
    DefaultClusterVariables scalarJSON .stored [⟨"kept", ⟨bytes "1"⟩⟩]
        [malformedVariable, cpuVariable, { malformedVariable with Name := "other" },
          { malformedVariable with Name := "kept" }, correctWithoutDefault] testPath =
      (.nil, .mk [
        field.Invalid testPath "" (.invalidSchema "malformed" (.unmarshalDefault "not a scalar document")),
        field.Invalid testPath "" (.invalidSchema "other" (.unmarshalDefault "not a scalar document"))]) ∧
    ((DefaultClusterVariables scalarJSON .stored [⟨"kept", ⟨bytes "1"⟩⟩]
        [malformedVariable, cpuVariable, { malformedVariable with Name := "other" },
          { malformedVariable with Name := "kept" }, correctWithoutDefault] testPath).2.toList.filter
        (fun x => x.Detail.variableName = "other")).length = 1 :=
  ⟨by decide,
    (C6_one_error_per_failing_declaration scalarJSON .stored [⟨"kept", ⟨bytes "1"⟩⟩]
      [malformedVariable, cpuVariable, { malformedVariable with Name := "other" },
        { malformedVariable with Name := "kept" }, correctWithoutDefault] testPath
      (by decide)).1 { malformedVariable with Name := "other" } (by decide)⟩

/-! ## Running the engine on its own result -/

/-- Contributions of at most one element each, named by the distinct keys of their
entries, bear distinct names. -/
theorem nodup_names_flatMap {α β : Type} (key : α → String) (name : β → String) (f : α → List β)
    (es : List α) (hf : ∀ e ∈ es, ∀ x ∈ f e, name x = key e) (hlen : ∀ e ∈ es, (f e).length ≤ 1)
    (hnd : (es.map key).Nodup) : ((es.flatMap f).map name).Nodup := by
  induction es with
  | nil => simp
  | cons e es ih =>
    simp only [List.map_cons, List.nodup_cons] at hnd
    rw [List.flatMap_cons, List.map_append, List.nodup_append]
    refine ⟨?_, ih (fun e1 h1 => hf e1 (List.mem_cons_of_mem _ h1))
      (fun e1 h1 => hlen e1 (List.mem_cons_of_mem _ h1)) hnd.2, ?_⟩
    · have h1 := hlen e (List.mem_cons_self _ _)
      match hfe : f e with
      | [] => simp
      | [x] => simp
      | x :: y :: rest => rw [hfe] at h1; simp at h1
    · intro n hn1 hn2
      obtain ⟨x, hx, hxn⟩ := List.mem_map.mp hn1
      obtain ⟨y, hy, hyn⟩ := List.mem_map.mp hn2
      obtain ⟨e1, he1, hy1⟩ := List.mem_flatMap.mp hy
      have hk : key e1 = key e := by
        rw [← hf e1 (List.mem_cons_of_mem _ he1) y hy1, hyn, ← hxn, hf e (List.mem_cons_self _ _) x hx]
      exact hnd.1 (hk ▸ List.mem_map_of_mem key he1)

theorem entryVariables_length (json : EncodingJSON) (m : GoMap ClusterVariable) (p : FieldPath)
    (e : String × ClusterClassVariable) : (entryVariables json m p e).length ≤ 1 := by
  cases hget : m.get e.1 with
  | some I => rw [(entry_of_instance json m p e I hget).1]; simp
  | none =>
    cases hd : e.2.Schema.OpenAPIV3Schema.Default with
    | none => rw [(entry_of_no_default json m p e hget hd).1]; simp
    | some d =>
      rw [(entry_of_synthesis json m p e hget d hd).2]
      split <;> simp

/-- The names of a result are distinct. -/
theorem nodup_result_names (json : EncodingJSON) (vs : List ClusterVariable) (p : FieldPath)
    (es : List (String × ClusterClassVariable)) (hnd : (es.map Prod.fst).Nodup) :
    ((es.flatMap (entryVariables json (getClusterVariablesMap vs) p)).map fun x => x.Name).Nodup :=
  nodup_names_flatMap Prod.fst (fun x : ClusterVariable => x.Name) _ es
    (fun e _ x hx => entryVariables_name json vs p e x hx)
    (fun e _ => entryVariables_length json _ p e) hnd

/-- On the result of a run without errors, every entry of the declaration map contributes
the variable it contributed to that result, and no error. -/
theorem entry_on_result (json : EncodingJSON) (vs : List ClusterVariable) (p : FieldPath)
    (es : List (String × ClusterClassVariable)) (hnd : (es.map Prod.fst).Nodup)
    (herrs : ∀ e ∈ es, entryErrors json (getClusterVariablesMap vs) p e = [])
    (e : String × ClusterClassVariable) (he : e ∈ es) :
    entryVariables json
        (getClusterVariablesMap (es.flatMap (entryVariables json (getClusterVariablesMap vs) p))) p e =
        entryVariables json (getClusterVariablesMap vs) p e ∧
      entryErrors json
        (getClusterVariablesMap (es.flatMap (entryVariables json (getClusterVariablesMap vs) p))) p e =
        [] := by
  have hr := nodup_result_names json vs p es hnd
  have hsingle : ∀ x, entryVariables json (getClusterVariablesMap vs) p e = [x] →
      entryVariables json (getClusterVariablesMap
          (es.flatMap (entryVariables json (getClusterVariablesMap vs) p))) p e = [x] ∧
        entryErrors json (getClusterVariablesMap
          (es.flatMap (entryVariables json (getClusterVariablesMap vs) p))) p e = [] := by
    intro x hx
    have hxe : x ∈ entryVariables json (getClusterVariablesMap vs) p e := by rw [hx]; simp
    have hxr : x ∈ es.flatMap (entryVariables json (getClusterVariablesMap vs) p) :=
      List.mem_flatMap.mpr ⟨e, he, hxe⟩
    have hget := get_instance_of_mem _ hr x hxr
    rw [entryVariables_name json vs p e x hxe] at hget
    exact entry_of_instance json _ p e x hget
  have hempty : entryVariables json (getClusterVariablesMap vs) p e = [] →
      (getClusterVariablesMap (es.flatMap (entryVariables json (getClusterVariablesMap vs) p))).get e.1 =
        none := by
    intro hnil
    rw [get_instance_none_iff]
    intro x hx hname
    obtain ⟨e1, he1, hx1⟩ := List.mem_flatMap.mp hx
    have hk : e1.1 = e.1 := by rw [← entryVariables_name json vs p e1 x hx1, hname]
    have : e1 = e := List.inj_on_of_nodup_map hnd he1 he hk
    rw [this, hnil] at hx1
    simp at hx1
  cases hget : (getClusterVariablesMap vs).get e.1 with
  | some I =>
    have h1 := (entry_of_instance json _ p e I hget).1
    rw [h1]
    exact hsingle I h1
  | none =>
    cases hd : e.2.Schema.OpenAPIV3Schema.Default with
    | none =>
      have h1 := (entry_of_no_default json _ p e hget hd).1
      rw [h1]
      exact entry_of_no_default json _ p e (hempty h1) hd
    | some d =>
      have hsyn := entry_of_synthesis json _ p e hget d hd
      have hnil : (defaultClusterVariable json { Name := e.1, Value := { Raw := [] } } e.2 p).2 = .nil := by
        have h0 := herrs e he
        rw [hsyn.1] at h0
        rcases defaultClusterVariable_errors json { Name := e.1, Value := { Raw := [] } } e.2 p with h1 | ⟨x, h1, _⟩
        · exact h1
        · rw [h1] at h0; simp at h0
      have h1 := hsyn.2
      rw [if_pos hnil] at h1
      rw [h1]
      exact hsingle _ h1

/-- C7: if `DefaultClusterVariables` returns a result without errors, then running it
again on that result and the same declarations, in whatever order the declaration map is
ranged over, returns no errors either, and a non-nil result that holds the same instances
as the first one, each as often. No uniqueness of names is needed. -/
theorem C7_idempotent (json : EncodingJSON) (order order2 : RangeOrder)
    (vs : List ClusterVariable) (ds : List ClusterClassVariable) (p : FieldPath)
    (hok : (DefaultClusterVariables json order vs ds p).2 = .nil) :
    (DefaultClusterVariables json order2
        (DefaultClusterVariables json order vs ds p).1.toList ds p).2 = .nil ∧
      (∃ xs, (DefaultClusterVariables json order2
        (DefaultClusterVariables json order vs ds p).1.toList ds p).1 = .mk xs) ∧
      (DefaultClusterVariables json order2
        (DefaultClusterVariables json order vs ds p).1.toList ds p).1.toList.Perm
        (DefaultClusterVariables json order vs ds p).1.toList := by
  have herrs := (errors_nil_iff json order vs ds p).mp hok
  have hr := variables_toList_of_no_error json order vs ds p hok
  have hnd : ((order.visit (getClusterClassVariablesMap ds).entries).map Prod.fst).Nodup :=
    ((order.visit_perm _).map Prod.fst).nodup_iff.mpr (nodup_declaration_keys ds)
  have hentry := entry_on_result json vs p (order.visit (getClusterClassVariablesMap ds).entries) hnd
    (fun e he => List.eq_nil_iff_forall_not_mem.mpr fun x hx => by
      have : x ∈ (order.visit (getClusterClassVariablesMap ds).entries).flatMap
          (entryErrors json (getClusterVariablesMap vs) p) := List.mem_flatMap.mpr ⟨e, he, hx⟩
      rw [herrs] at this
      simp at this)
  have h21 : (order2.visit (getClusterClassVariablesMap ds).entries).Perm
      (order.visit (getClusterClassVariablesMap ds).entries) :=
    (order2.visit_perm _).trans (order.visit_perm _).symm
  rw [hr, Slice.toList_mk]
  have herrs2 : (order2.visit (getClusterClassVariablesMap ds).entries).flatMap
      (entryErrors json (getClusterVariablesMap
        ((order.visit (getClusterClassVariablesMap ds).entries).flatMap
          (entryVariables json (getClusterVariablesMap vs) p))) p) = [] := by
    apply List.eq_nil_iff_forall_not_mem.mpr
    intro x hx
    obtain ⟨e, he, hxe⟩ := List.mem_flatMap.mp hx
    rw [(hentry e (h21.mem_iff.mp he)).2] at hxe
    simp at hxe
  rw [DefaultClusterVariables_of_no_error json order2 _ ds p herrs2]
  refine ⟨rfl, ⟨_, rfl⟩, ?_⟩
  rw [Slice.toList_mk]
  rw [List.flatMap_congr (fun e he => (hentry e (h21.mem_iff.mp he)).1)]
  exact h21.flatMap_right _

/-- A run for C7: the second case of `Test_DefaultClusterVariables` with a declaration
`flag` without default added, ranged over in one order and then in the opposite one. -/
theorem C7_idempotent_witness :
    DefaultClusterVariables scalarJSON .stored [correctInstance]
        [cpuVariable, correctVariable, { correctWithoutDefault with Name := "flag" }] testPath =
      (.mk [⟨"cpu", ⟨bytes "1"⟩⟩, correctInstance], .nil) ∧
    (DefaultClusterVariables scalarJSON .reversed
        [⟨"cpu", ⟨bytes "1"⟩⟩, correctInstance]
        [cpuVariable, correctVariable, { correctWithoutDefault with Name := "flag" }] testPath).1.toList.Perm
      [⟨"cpu", ⟨bytes "1"⟩⟩, correctInstance] :=
  ⟨by decide,
    (C7_idempotent scalarJSON .stored .reversed [correctInstance]
      [cpuVariable, correctVariable, { correctWithoutDefault with Name := "flag" }] testPath (by decide)).2.2⟩

/-! ## Schema conversion -/

theorem decodeEnum_ok_iff (json : EncodingJSON) (k : Nat) (es : List JSON) (vs : List JSONValue) :
    decodeEnum json k es = .ok vs ↔ es.map (fun e => json.Unmarshal e.Raw) = vs.map .ok := by
  induction es generalizing k vs with
  | nil =>
    cases vs with
    | nil => simp [decodeEnum]
    | cons v vs => simp [decodeEnum]
  | cons e es ih =>
    simp only [decodeEnum, List.map_cons]
    cases hu : json.Unmarshal e.Raw with
    | error err =>
      cases vs with
      | nil => simp
      | cons v vs => simp
    | ok v =>
      cases hrest : decodeEnum json (k + 1) es with
      | error err =>
        cases vs with
        | nil => simp
        | cons w ws =>
          simp only [List.map_cons, List.cons.injEq, Except.ok.injEq]
          constructor
          · intro h; cases h
          · rintro ⟨_, h⟩
            rw [(ih (k + 1) ws).mpr h] at hrest
            cases hrest
      | ok ws =>
        have hws := (ih (k + 1) ws).mp hrest
        cases vs with
        | nil => simp
        | cons w ws1 =>
          simp only [Except.ok.injEq, List.cons.injEq, List.map_cons]
          constructor
          · rintro ⟨h1, h2⟩
            exact ⟨h1, by rw [← h2]; exact hws⟩
          · rintro ⟨h1, h2⟩
            refine ⟨h1, ?_⟩
            have := (ih (k + 1) ws1).mpr h2
            rw [hrest] at this
            exact Except.ok.inj this

theorem decodeEnum_error (json : EncodingJSON) (k : Nat) (es : List JSON) (err : ConversionError)
    (h : decodeEnum json k es = .error err) :
    ∃ i entry msg, es[i]? = some entry ∧ json.Unmarshal entry.Raw = .error msg ∧
      err = .unmarshalEnum (k + i) msg := by
  induction es generalizing k with
  | nil => simp [decodeEnum] at h
  | cons e es ih =>
    simp only [decodeEnum] at h
    cases hu : json.Unmarshal e.Raw with
    | error msg =>
      rw [hu] at h
      simp only [Except.error.injEq] at h
      exact ⟨0, e, msg, by simp, hu, h.symm⟩
    | ok v =>
      rw [hu] at h
      cases hrest : decodeEnum json (k + 1) es with
      | error err1 =>
        rw [hrest] at h
        simp only [Except.error.injEq] at h
        subst h
        obtain ⟨i, entry, msg, hi, hm, herr⟩ := ih (k + 1) hrest
        refine ⟨i + 1, entry, msg, by simpa using hi, hm, ?_⟩
        rw [herr, Nat.add_assoc, Nat.add_comm 1 i]
      | ok ws => rw [hrest] at h; simp at h

theorem decodeEnum_ok_of_all (json : EncodingJSON) (k : Nat) (es : List JSON)
    (h : ∀ e ∈ es, ∃ v, json.Unmarshal e.Raw = .ok v) : ∃ vs, decodeEnum json k es = .ok vs := by
  cases hd : decodeEnum json k es with
  | ok vs => exact ⟨vs, rfl⟩
  | error err =>
    obtain ⟨i, entry, msg, hi, hm, _⟩ := decodeEnum_error json k es err hd
    obtain ⟨v, hv⟩ := h entry (List.getElem?_mem hi)
    rw [hv] at hm
    cases hm

theorem convert_of_decoded (json : EncodingJSON) (schema : JSONSchemaProps)
    (d : Option JSONValue) (en : List JSONValue)
    (hd : decodeDefault json schema.Default = .ok d) (hen : decodeEnum json 0 schema.Enum = .ok en) :
    ∃ out, convertToAPIExtensionsJSONSchemaProps json schema = .ok out ∧
      out.Default = d ∧ out.Enum = en ∧
      out.Minimum = schema.Minimum.bind convertIntToFloatPointer ∧
      out.Maximum = schema.Maximum.bind convertIntToFloatPointer := by
  simp only [convertToAPIExtensionsJSONSchemaProps, hd, hen]
  exact ⟨_, rfl, rfl, rfl, rfl, rfl⟩

/-- C8: when the default of a schema, if it has one, and every enum entry decode, the
conversion succeeds; the default of the converted schema is the decoded default (absent
when the input has none), and its enum has the length of the input enum and holds, entry
by entry and in order, the decoded entries. -/
theorem C8_default_and_enum_are_decoded (json : EncodingJSON) (schema : JSONSchemaProps)
    (hdefault : ∀ d, schema.Default = some d → ∃ v, json.Unmarshal d.Raw = .ok v)
    (henum : ∀ e ∈ schema.Enum, ∃ v, json.Unmarshal e.Raw = .ok v) :
    ∃ out, convertToAPIExtensionsJSONSchemaProps json schema = .ok out ∧
      out.Default.map .ok = schema.Default.map (fun d => json.Unmarshal d.Raw) ∧
      out.Enum.length = schema.Enum.length ∧
      out.Enum.map .ok = schema.Enum.map (fun e => json.Unmarshal e.Raw) := by
  obtain ⟨en, hen⟩ := decodeEnum_ok_of_all json 0 schema.Enum henum
  have hmap := (decodeEnum_ok_iff json 0 schema.Enum en).mp hen
  have hlen : en.length = schema.Enum.length := by
    have := congrArg List.length hmap
    simpa using this.symm
  cases hsd : schema.Default with
  | none =>
    obtain ⟨out, hout, h1, h2, _⟩ := convert_of_decoded json schema none en (by rw [hsd]; rfl) hen
    exact ⟨out, hout, by rw [h1]; rfl, by rw [h2]; exact hlen, by rw [h2]; exact hmap.symm⟩
  | some d =>
    obtain ⟨v, hv⟩ := hdefault d hsd
    obtain ⟨out, hout, h1, h2, _⟩ := convert_of_decoded json schema (some v) en
      (by rw [hsd]; simp only [decodeDefault, hv]) hen
    exact ⟨out, hout, by rw [h1]; simp [hv], by rw [h2]; exact hlen, by rw [h2]; exact hmap.symm⟩

/-- A run for C8: the case `pass for schema with default and enum` of
`Test_convertToAPIExtensionsJSONSchemaProps`; the default `"defaultValue"` becomes the
string `defaultValue`, without its quotes. -/
theorem C8_default_and_enum_are_decoded_witness :
    convertToAPIExtensionsJSONSchemaProps scalarJSON schemaWithDefaultAndEnum =
        .ok { Type_ := "", Format := "", MaxLength := none, MinLength := none, Pattern := "",
              Maximum := none, ExclusiveMaximum := false, Minimum := none,
              ExclusiveMinimum := false,
              Enum := [.string "enumValue1", .string "enumValue2"],
              Default := some (.string "defaultValue") } ∧
      ∃ out, convertToAPIExtensionsJSONSchemaProps scalarJSON schemaWithDefaultAndEnum = .ok out ∧
        out.Default.map .ok =
          schemaWithDefaultAndEnum.Default.map (fun d => scalarJSON.Unmarshal d.Raw) ∧
        out.Enum.length = schemaWithDefaultAndEnum.Enum.length ∧
        out.Enum.map .ok = schemaWithDefaultAndEnum.Enum.map (fun e => scalarJSON.Unmarshal e.Raw) :=
  ⟨by rfl,
    C8_default_and_enum_are_decoded scalarJSON schemaWithDefaultAndEnum
      (by
        intro d hd
        have : d = ⟨bytes "\"defaultValue\""⟩ := (Option.some.inj hd).symm
        subst this
        exact ⟨.string "defaultValue", by rfl⟩)
      (by
        intro e he
        simp only [schemaWithDefaultAndEnum, List.mem_cons, List.mem_singleton, List.not_mem_nil,
          or_false] at he
        rcases he with he | he
        · subst he; exact ⟨.string "enumValue1", by rfl⟩
        · subst he; exact ⟨.string "enumValue2", by rfl⟩)⟩

/-- C10: the conversion fails exactly when the default or some enum entry does not decode,
and then its error names the field, the index of the enum entry, and the error of the
decoder; and when the conversion of the schema of a declaration fails,
`defaultClusterVariable` leaves the variable as it was and returns a list of one error
that wraps the conversion error. -/
theorem C10_conversion_fails_iff_undecodable (json : EncodingJSON) :
    (∀ schema : JSONSchemaProps,
      ((∃ err, convertToAPIExtensionsJSONSchemaProps json schema = .error err) ↔
        ((∃ d msg, schema.Default = some d ∧ json.Unmarshal d.Raw = .error msg) ∨
          ∃ e ∈ schema.Enum, ∃ msg, json.Unmarshal e.Raw = .error msg)) ∧
      (∀ err, convertToAPIExtensionsJSONSchemaProps json schema = .error err →
        (∃ d msg, schema.Default = some d ∧ json.Unmarshal d.Raw = .error msg ∧
            err = .unmarshalDefault msg) ∨
          ∃ i entry msg, schema.Enum[i]? = some entry ∧ json.Unmarshal entry.Raw = .error msg ∧
            err = .unmarshalEnum i msg)) ∧
      (∀ (cv : ClusterVariable) (D : ClusterClassVariable) (p : FieldPath) (err : ConversionError),
        convertToAPIExtensionsJSONSchemaProps json D.Schema.OpenAPIV3Schema = .error err →
          defaultClusterVariable json cv D p =
              (cv, .mk [field.Invalid p "" (.invalidSchema cv.Name err)]) ∧
            0 < (defaultClusterVariable json cv D p).2.len) := by
  have hreport : ∀ (schema : JSONSchemaProps) (err : ConversionError),
      convertToAPIExtensionsJSONSchemaProps json schema = .error err →
        (∃ d msg, schema.Default = some d ∧ json.Unmarshal d.Raw = .error msg ∧
            err = .unmarshalDefault msg) ∨
          ∃ i entry msg, schema.Enum[i]? = some entry ∧ json.Unmarshal entry.Raw = .error msg ∧
            err = .unmarshalEnum i msg := by
    intro schema err h
    simp only [convertToAPIExtensionsJSONSchemaProps] at h
    cases hd : decodeDefault json schema.Default with
    | error err1 =>
      rw [hd] at h
      simp only [Except.error.injEq] at h
      left
      cases hsd : schema.Default with
      | none => rw [hsd] at hd; simp [decodeDefault] at hd
      | some d =>
        rw [hsd] at hd
        simp only [decodeDefault] at hd
        cases hu : json.Unmarshal d.Raw with
        | error msg =>
          rw [hu] at hd
          simp only [Except.error.injEq] at hd
          exact ⟨d, msg, rfl, hu, by rw [← h, ← hd]⟩
        | ok v => rw [hu] at hd; simp at hd
    | ok d =>
      rw [hd] at h
      cases hen : decodeEnum json 0 schema.Enum with
      | error err1 =>
        rw [hen] at h
        simp only [Except.error.injEq] at h
        obtain ⟨i, entry, msg, hi, hm, herr⟩ := decodeEnum_error json 0 schema.Enum err1 hen
        right
        exact ⟨i, entry, msg, hi, hm, by rw [← h, herr, Nat.zero_add]⟩
      | ok en => rw [hen] at h; simp at h
  refine ⟨fun schema => ⟨⟨?_, ?_⟩, hreport schema⟩, ?_⟩
  · rintro ⟨err, h⟩
    rcases hreport schema err h with ⟨d, msg, h1, h2, _⟩ | ⟨i, entry, msg, h1, h2, _⟩
    · exact Or.inl ⟨d, msg, h1, h2⟩
    · exact Or.inr ⟨entry, List.getElem?_mem h1, msg, h2⟩
  · intro hbad
    cases hc : convertToAPIExtensionsJSONSchemaProps json schema with
    | error err => exact ⟨err, rfl⟩
    | ok out =>
      exfalso
      have hdec := convert_ok_default json schema out hc
      rcases hbad with ⟨d, msg, h1, h2⟩ | ⟨e, he, msg, h2⟩
      · rw [h1] at hdec
        obtain ⟨v, hv, _⟩ := decodeDefault_some_ok json d _ hdec.1
        rw [hv] at h2
        cases h2
      · have hmap := (decodeEnum_ok_iff json 0 schema.Enum out.Enum).mp hdec.2
        have hmem : json.Unmarshal e.Raw ∈ out.Enum.map Except.ok := by
          rw [← hmap]
          exact List.mem_map_of_mem (fun e => json.Unmarshal e.Raw) he
        obtain ⟨v, _, hv⟩ := List.mem_map.mp hmem
        rw [h2] at hv
        cases hv
  · intro cv D p err h
    rw [defaultClusterVariable_of_convert_error json cv D p err h]
    exact ⟨rfl, Nat.one_pos⟩

/-- Runs for C10: a default that is not JSON, and a second enum entry that is not JSON,
make the conversion fail; `defaultClusterVariable` then reports the failure. -/
theorem C10_conversion_fails_runs :
    convertToAPIExtensionsJSONSchemaProps scalarJSON malformedVariable.Schema.OpenAPIV3Schema =
        .error (.unmarshalDefault "not a scalar document") ∧
      convertToAPIExtensionsJSONSchemaProps scalarJSON
          { Enum := [⟨bytes "\"enumValue1\""⟩, ⟨bytes "\"enumValue2"⟩] } =
        .error (.unmarshalEnum 1 "not a scalar document") ∧
      defaultClusterVariable scalarJSON ⟨"malformed", ⟨[]⟩⟩ malformedVariable testPath =
        (⟨"malformed", ⟨[]⟩⟩, .mk [field.Invalid testPath ""
          (.invalidSchema "malformed" (.unmarshalDefault "not a scalar document"))]) := by
  refine ⟨by rfl, by rfl, by decide⟩

/-! ## Widening of integer bounds -/

theorem roundToSignificand_of_le (n : Nat) (h : n ≤ 2 ^ 53) : roundToSignificand n = n := by
  rcases Nat.lt_or_eq_of_le h with h1 | h1
  · have h2 : n < 9007199254740992 := by norm_num at h1; exact h1
    have he : excessBits 64 n = 0 := by simp [excessBits, h2]
    simp [roundToSignificand, he, Nat.mod_one]
  · subst h1
    decide

theorem float64_of_small (i : Int) (h1 : -(2 : Int) ^ 53 ≤ i) (h2 : i ≤ (2 : Int) ^ 53) :
    float64 i = (i : ℚ) := by
  have hn : i.natAbs ≤ 2 ^ 53 := by omega
  unfold float64
  rw [roundToSignificand_of_le _ hn]
  by_cases h0 : 0 ≤ i
  · rw [if_pos h0, Int.natAbs_of_nonneg h0]
  · rw [if_neg h0]
    have : -((i.natAbs : Nat) : Int) = i := by omega
    rw [← Int.cast_neg, this]

theorem int64_intCast (i : Int) (h : Int64.InRange i) : int64 (i : ℚ) = some i := by
  simp [int64, h]

theorem widen_lossless (i : Int) (h1 : -(2 : Int) ^ 53 ≤ i) (h2 : i ≤ (2 : Int) ^ 53) :
    (convertIntToFloatPointer i).bind int64 = some i := by
  have hr : Int64.InRange i := by
    unfold Int64.InRange
    constructor <;> omega
  simp only [convertIntToFloatPointer, Option.some_bind, float64_of_small i h1 h2]
  exact int64_intCast i hr

theorem excessBits_div_lt (fuel n : Nat) (h : n < 2 ^ (53 + fuel)) :
    n / 2 ^ excessBits fuel n < 2 ^ 53 := by
  induction fuel generalizing n with
  | zero => simpa [excessBits] using h
  | succ fuel ih =>
    by_cases hn : n < 2 ^ 53
    · simp only [excessBits, if_pos hn, Nat.pow_zero, Nat.div_one]
      exact hn
    · have hhalf : n / 2 < 2 ^ (53 + fuel) := by
        have hpow : 2 ^ (53 + (fuel + 1)) = 2 * 2 ^ (53 + fuel) := by
          rw [← Nat.add_assoc, Nat.pow_succ, Nat.mul_comm]
        rw [hpow] at h
        omega
      have := ih (n / 2) hhalf
      simp only [excessBits, hn, if_false]
      rw [Nat.pow_succ, Nat.mul_comm, ← Nat.div_div_eq_div_mul]
      exact this

theorem excessBits_le (fuel n : Nat) (h : 0 < excessBits fuel n) :
    2 ^ (52 + excessBits fuel n) ≤ n := by
  induction fuel generalizing n with
  | zero => simp [excessBits] at h
  | succ fuel ih =>
    by_cases hn : n < 2 ^ 53
    · simp only [excessBits, if_pos hn] at h
      exact absurd h (Nat.lt_irrefl 0)
    · simp only [excessBits, hn, if_false]
      by_cases h0 : 0 < excessBits fuel (n / 2)
      · have := ih (n / 2) h0
        have hpow : 2 ^ (52 + (excessBits fuel (n / 2) + 1)) =
            2 * 2 ^ (52 + excessBits fuel (n / 2)) := by
          rw [← Nat.add_assoc, Nat.pow_succ, Nat.mul_comm]
        rw [hpow]
        omega
      · have hz : excessBits fuel (n / 2) = 0 := by omega
        rw [hz]
        have : (2 : Nat) ^ (52 + (0 + 1)) = 2 ^ 53 := by norm_num
        rw [this]
        omega

theorem round_eq_iff (q r P : Nat) (hr : r < P) :
    (if 2 * r < P then q * P
      else if 2 * r = P then (if q % 2 = 0 then q else q + 1) * P
      else (q + 1) * P) = q * P + r ↔ r = 0 := by
  have hsucc : (q + 1) * P = q * P + P := by rw [Nat.add_mul, Nat.one_mul]
  by_cases h1 : 2 * r < P
  · rw [if_pos h1]
    omega
  · rw [if_neg h1]
    by_cases h2 : 2 * r = P
    · rw [if_pos h2]
      by_cases h3 : q % 2 = 0
      · rw [if_pos h3]
        omega
      · rw [if_neg h3, hsucc]
        omega
    · rw [if_neg h2, hsucc]
      omega

/-- The rounding leaves `n` as it is exactly when the bits of `n` beyond the 53 leading
ones are zero. -/
theorem roundToSignificand_eq_self_iff (n : Nat) :
    roundToSignificand n = n ↔ n % 2 ^ excessBits 64 n = 0 := by
  have hlt := Nat.mod_lt n (Nat.two_pow_pos (excessBits 64 n))
  have hdm : n / 2 ^ excessBits 64 n * 2 ^ excessBits 64 n + n % 2 ^ excessBits 64 n = n := by
    rw [Nat.mul_comm]
    exact Nat.div_add_mod n (2 ^ excessBits 64 n)
  have h := round_eq_iff (n / 2 ^ excessBits 64 n) (n % 2 ^ excessBits 64 n)
    (2 ^ excessBits 64 n) hlt
  rw [hdm] at h
  exact h

theorem mod_excessBits_eq_zero_iff (n : Nat) (hn : n < 2 ^ (53 + 64)) :
    n % 2 ^ excessBits 64 n = 0 ↔ ∃ m e : Nat, m < 2 ^ 53 ∧ n = m * 2 ^ e := by
  constructor
  · intro h
    exact ⟨n / 2 ^ excessBits 64 n, excessBits 64 n, excessBits_div_lt 64 n hn,
      (Nat.div_mul_cancel (Nat.dvd_of_mod_eq_zero h)).symm⟩
  · rintro ⟨m, k, hm, hnk⟩
    by_cases h0 : 0 < excessBits 64 n
    · have hlow := excessBits_le 64 n h0
      have hup : n < 2 ^ (53 + k) := by
        rw [hnk, Nat.pow_add]
        exact Nat.mul_lt_mul_of_pos_right hm (Nat.two_pow_pos k)
      have hexp : 52 + excessBits 64 n < 53 + k :=
        (Nat.pow_lt_pow_iff_right (by decide)).mp (Nat.lt_of_le_of_lt hlow hup)
      have hle : excessBits 64 n ≤ k := by omega
      have hdvd : 2 ^ k ∣ n := ⟨m, by rw [hnk, Nat.mul_comm]⟩
      exact Nat.mod_eq_zero_of_dvd (Nat.dvd_trans (Nat.pow_dvd_pow 2 hle) hdvd)
    · have hz : excessBits 64 n = 0 := by omega
      rw [hz, Nat.pow_zero, Nat.mod_one]

theorem int64_intCast_eq (z : Int) : int64 (z : ℚ) = if Int64.InRange z then some z else none := by
  simp [int64]

/-- The round trip of an `int64` through `float64` gives it back exactly when `float64`
holds it exactly. -/
theorem widen_lossless_iff (i : Int) (hi : Int64.InRange i) :
    (convertIntToFloatPointer i).bind int64 = some i ↔ exactFloat64 i := by
  have hn : i.natAbs < 2 ^ (53 + 64) := by
    unfold Int64.InRange at hi
    have : (2 : Nat) ^ (53 + 64) = 166153499473114484112975882535043072 := by norm_num
    omega
  rw [exactFloat64, ← mod_excessBits_eq_zero_iff i.natAbs hn, ← roundToSignificand_eq_self_iff]
  simp only [convertIntToFloatPointer, Option.some_bind, float64]
  by_cases h0 : 0 ≤ i
  · rw [if_pos h0, int64_intCast_eq]
    constructor
    · intro h
      split at h
      · have := Option.some.inj h
        omega
      · cases h
    · intro h
      have hz : ((roundToSignificand i.natAbs : Nat) : Int) = i := by omega
      rw [hz, if_pos hi]
  · rw [if_neg h0, ← Int.cast_neg, int64_intCast_eq]
    constructor
    · intro h
      split at h
      · have := Option.some.inj h
        omega
      · cases h
    · intro h
      have hz : -((roundToSignificand i.natAbs : Nat) : Int) = i := by omega
      rw [hz, if_pos hi]

theorem exactFloat64_of_small (i : Int) (h1 : -(2 : Int) ^ 53 ≤ i) (h2 : i ≤ (2 : Int) ^ 53) :
    exactFloat64 i := by
  have hn : i.natAbs ≤ 2 ^ 53 := by omega
  rcases Nat.lt_or_eq_of_le hn with h | h
  · exact ⟨i.natAbs, 0, h, by simp⟩
  · exact ⟨2 ^ 52, 1, by norm_num, by rw [h]; norm_num⟩

/-- C9, as amended: whenever the conversion of a schema succeeds, an `int64` minimum or
maximum `i` is widened as `convertIntToFloatPointer` widens it, and converting the widened
bound back to an integer gives `i` again exactly when `float64` holds `i` exactly, that is
when the magnitude of `i` is a significand below `2 ^ 53` times a power of two. Every
bound of magnitude at most `2 ^ 53` is of that kind, and is widened to the `float64` of the
same value. -/
theorem C9_bounds_widen_lossless_iff_exact (json : EncodingJSON) (schema : JSONSchemaProps)
    (out : apiextensions.JSONSchemaProps)
    (hconv : convertToAPIExtensionsJSONSchemaProps json schema = .ok out) :
    (∀ i, schema.Minimum = some i → Int64.InRange i →
        out.Minimum = convertIntToFloatPointer i ∧
          (out.Minimum.bind int64 = some i ↔ exactFloat64 i) ∧
          (-(2 : Int) ^ 53 ≤ i → i ≤ (2 : Int) ^ 53 →
            exactFloat64 i ∧ out.Minimum = some (i : ℚ) ∧ out.Minimum.bind int64 = some i)) ∧
      (∀ i, schema.Maximum = some i → Int64.InRange i →
        out.Maximum = convertIntToFloatPointer i ∧
          (out.Maximum.bind int64 = some i ↔ exactFloat64 i) ∧
          (-(2 : Int) ^ 53 ≤ i → i ≤ (2 : Int) ^ 53 →
            exactFloat64 i ∧ out.Maximum = some (i : ℚ) ∧ out.Maximum.bind int64 = some i)) := by
  have hdec := convert_ok_default json schema out hconv
  obtain ⟨out1, hout1, _, _, hmin, hmax⟩ := convert_of_decoded json schema _ _ hdec.1 hdec.2
  rw [hconv] at hout1
  cases hout1
  constructor
  · intro i hi hr
    rw [hmin, hi, Option.some_bind]
    exact ⟨rfl, widen_lossless_iff i hr, fun h1 h2 => ⟨exactFloat64_of_small i h1 h2,
      by rw [convertIntToFloatPointer, float64_of_small i h1 h2], widen_lossless i h1 h2⟩⟩
  · intro i hi hr
    rw [hmax, hi, Option.some_bind]
    exact ⟨rfl, widen_lossless_iff i hr, fun h1 h2 => ⟨exactFloat64_of_small i h1 h2,
      by rw [convertIntToFloatPointer, float64_of_small i h1 h2], widen_lossless i h1 h2⟩⟩

/-- Runs for C9: the case `pass for schema with minimum and maximum` of
`Test_convertToAPIExtensionsJSONSchemaProps`, where the minimum `1` becomes `1.0` and the
maximum `43` becomes `43.0`; and a schema whose bounds are the least `int64`, `-2 ^ 63`,
and `2 ^ 53 + 2`, which `float64` holds exactly although they exceed `2 ^ 53`. -/
theorem C9_bounds_widen_lossless_iff_exact_witness :
    convertToAPIExtensionsJSONSchemaProps scalarJSON schemaWithMinAndMax =
        .ok { Type_ := "integer", Format := "", MaxLength := none, MinLength := none,
              Pattern := "", Maximum := some 43, ExclusiveMaximum := false, Minimum := some 1,
              ExclusiveMinimum := false, Enum := [], Default := none } ∧
      (some (1 : ℚ)).bind int64 = some 1 ∧ (some (43 : ℚ)).bind int64 = some 43 ∧
      ∃ out, convertToAPIExtensionsJSONSchemaProps scalarJSON
          { Type_ := "integer", Minimum := some (-9223372036854775808),
            Maximum := some 9007199254740994 } = .ok out ∧
        out.Minimum.bind int64 = some (-9223372036854775808) ∧
        out.Maximum.bind int64 = some 9007199254740994 := by
  have hconv : convertToAPIExtensionsJSONSchemaProps scalarJSON schemaWithMinAndMax =
        .ok { Type_ := "integer", Format := "", MaxLength := none, MinLength := none,
              Pattern := "", Maximum := some 43, ExclusiveMaximum := false, Minimum := some 1,
              ExclusiveMinimum := false, Enum := [], Default := none } := by rfl
  have h := C9_bounds_widen_lossless_iff_exact scalarJSON schemaWithMinAndMax _ hconv
  have hconv2 : convertToAPIExtensionsJSONSchemaProps scalarJSON
      { Type_ := "integer", Minimum := some (-9223372036854775808),
        Maximum := some 9007199254740994 } =
        .ok { Type_ := "integer", Format := "", MaxLength := none, MinLength := none,
              Pattern := "",
              Maximum := convertIntToFloatPointer 9007199254740994,
              ExclusiveMaximum := false,
              Minimum := convertIntToFloatPointer (-9223372036854775808),
              ExclusiveMinimum := false, Enum := [], Default := none } := by rfl
  have h2 := C9_bounds_widen_lossless_iff_exact scalarJSON _ _ hconv2
  refine ⟨hconv, ((h.1 1 rfl (by decide)).2.2 (by decide) (by decide)).2.2,
    ((h.2 43 rfl (by decide)).2.2 (by decide) (by decide)).2.2, _, hconv2, ?_, ?_⟩
  · exact ((h2.1 (-9223372036854775808) rfl (by decide)).2.1).mpr ⟨1, 63, by norm_num, by decide⟩
  · exact ((h2.2 9007199254740994 rfl (by decide)).2.1).mpr
      ⟨4503599627370497, 1, by norm_num, by decide⟩

/-- C9 as stated fails at the `int64` bound `2 ^ 53 + 1 = 9007199254740993`: it lies half
way between two neighbouring `float64` values and is widened to the one with the even
significand, `2 ^ 53`, so that converting back gives `9007199254740992`; it is not an
integer that `float64` holds exactly. -/
theorem C9_large_bound_counterexample :
    Int64.InRange 9007199254740993 ∧
      convertIntToFloatPointer 9007199254740993 = some 9007199254740992 ∧
      (convertIntToFloatPointer 9007199254740993).bind int64 = some 9007199254740992 ∧
      (∃ out, convertToAPIExtensionsJSONSchemaProps scalarJSON
          { Type_ := "integer", Minimum := some 9007199254740993 } = .ok out ∧
        out.Minimum.bind int64 = some 9007199254740992) ∧
      ¬ exactFloat64 9007199254740993 := by
  refine ⟨by decide, by decide, by decide, ⟨_, by rfl, by decide⟩, ?_⟩
  have hn : (9007199254740993 : Int).natAbs < 2 ^ (53 + 64) := by decide
  exact (mod_excessBits_eq_zero_iff _ hn).not.mp (by decide)

/-! ## Fields that copy -/

/-- C11: a schema with no default and no enum converts, for every decoder, to a schema
with the same type, format, length bounds, pattern and exclusivity flags, with a minimum
and a maximum present exactly when the input has them (the input bound widened), and with
neither default nor enum. -/
theorem C11_scalar_fields_copy (json : EncodingJSON) (schema : JSONSchemaProps)
    (hdefault : schema.Default = none) (henum : schema.Enum = []) :
    ∃ out, convertToAPIExtensionsJSONSchemaProps json schema = .ok out ∧
      out.Type_ = schema.Type_ ∧ out.Format = schema.Format ∧
      out.MinLength = schema.MinLength ∧ out.MaxLength = schema.MaxLength ∧
      out.Pattern = schema.Pattern ∧
      out.ExclusiveMinimum = schema.ExclusiveMinimum ∧
      out.ExclusiveMaximum = schema.ExclusiveMaximum ∧
      out.Minimum.isSome = schema.Minimum.isSome ∧ out.Maximum.isSome = schema.Maximum.isSome ∧
      out.Minimum = schema.Minimum.map float64 ∧ out.Maximum = schema.Maximum.map float64 ∧
      out.Default = none ∧ out.Enum = [] := by
  have hbind : ∀ o : Option Int, o.bind convertIntToFloatPointer = o.map float64 := by
    intro o
    cases o <;> rfl
  have hconv : convertToAPIExtensionsJSONSchemaProps json schema =
      .ok { Type_ := schema.Type_, Format := schema.Format, MaxLength := schema.MaxLength,
            MinLength := schema.MinLength, Pattern := schema.Pattern,
            Maximum := schema.Maximum.bind convertIntToFloatPointer,
            ExclusiveMaximum := schema.ExclusiveMaximum,
            Minimum := schema.Minimum.bind convertIntToFloatPointer,
            ExclusiveMinimum := schema.ExclusiveMinimum, Enum := [], Default := none } := by
    simp only [convertToAPIExtensionsJSONSchemaProps, hdefault, henum, decodeDefault, decodeEnum]
  refine ⟨_, hconv, rfl, rfl, rfl, rfl, rfl, rfl, rfl, ?_, ?_, hbind _, hbind _, rfl, rfl⟩
  · simp only [hbind, Option.isSome_map']
  · simp only [hbind, Option.isSome_map']

/-- Runs for C11: the two table cases of `Test_convertToAPIExtensionsJSONSchemaProps`,
with the results the test wants. -/
theorem C11_scalar_fields_copy_witness :
    convertToAPIExtensionsJSONSchemaProps scalarJSON basicSchema =
        .ok { Type_ := "integer", Format := "", MaxLength := none, MinLength := none,
              Pattern := "", Maximum := none, ExclusiveMaximum := false, Minimum := none,
              ExclusiveMinimum := false, Enum := [], Default := none } ∧
      ∃ out, convertToAPIExtensionsJSONSchemaProps scalarJSON schemaWithMinAndMax = .ok out ∧
        out.Type_ = "integer" ∧ out.Format = "" ∧ out.MinLength = none ∧ out.MaxLength = none ∧
        out.Pattern = "" ∧ out.ExclusiveMinimum = false ∧ out.ExclusiveMaximum = false ∧
        out.Minimum.isSome = true ∧ out.Maximum.isSome = true ∧
        out.Minimum = (some (1 : Int)).map float64 ∧ out.Maximum = (some (43 : Int)).map float64 ∧
        out.Default = none ∧ out.Enum = [] :=
  ⟨by rfl, C11_scalar_fields_copy scalarJSON schemaWithMinAndMax rfl rfl⟩

/-! ## The value that is encoded -/

theorem keys_injective (ds : List ClusterClassVariable) (e1 e2 : String × ClusterClassVariable)
    (h1 : e1 ∈ (getClusterClassVariablesMap ds).entries)
    (h2 : e2 ∈ (getClusterClassVariablesMap ds).entries) (hk : e1.1 = e2.1) : e1 = e2 :=
  List.inj_on_of_nodup_map (nodup_declaration_keys ds) h1 h2 hk

/-- C14: a declaration of the declaration map that reaches synthesis (no instance bears
its name and its schema has a default `V`) has, whenever its schema converts, a converted
schema whose default is present and is the value `V` decodes to; and an instance of the
result that bears its name has the encoding of that value as its value. -/
theorem C14_synthesis_has_default (json : EncodingJSON) (order : RangeOrder)
    (vs : List ClusterVariable) (ds : List ClusterClassVariable) (p : FieldPath)
    (e : String × ClusterClassVariable) (he : e ∈ (getClusterClassVariablesMap ds).entries)
    (hget : (getClusterVariablesMap vs).get e.1 = none)
    (V : JSON) (hV : e.2.Schema.OpenAPIV3Schema.Default = some V) :
    (∀ s, convertToAPIExtensionsJSONSchemaProps json e.2.Schema.OpenAPIV3Schema = .ok s →
        ∃ v, json.Unmarshal V.Raw = .ok v ∧ s.Default = some v) ∧
      (∀ I ∈ (DefaultClusterVariables json order vs ds p).1.toList, I.Name = e.1 →
        ∃ v, json.Unmarshal V.Raw = .ok v ∧ json.Marshal (DeepCopyJSONValue v) = .ok I.Value.Raw) := by
  constructor
  · intro s hs
    have hdec := (convert_ok_default json _ s hs).1
    rw [hV] at hdec
    exact decodeDefault_some_ok json V _ hdec
  · intro I hI hname
    obtain ⟨e1, he1, hI1⟩ := mem_variables_toList json order vs ds p I hI
    have hk : e1.1 = e.1 := by rw [← entryVariables_name json vs p e1 I hI1, hname]
    have heq : e1 = e := keys_injective ds e1 e he1 he hk
    rw [heq, (entry_of_synthesis json _ p e hget V hV).2] at hI1
    split at hI1
    · rename_i hnil
      obtain ⟨v, raw, hv, hm, hcv⟩ := defaultClusterVariable_of_nil json _ e.2 p V hV hnil
      rw [List.mem_singleton] at hI1
      rw [hI1, hcv]
      exact ⟨v, hv, by rw [deepCopy_eq_self]; exact hm⟩
    · simp at hI1

/-- A run for C14: the first case of `Test_DefaultClusterVariables`, at the declaration
`cpu`. -/
theorem C14_synthesis_has_default_witness :
    DefaultClusterVariables scalarJSON .stored [] [cpuVariable, correctVariable] testPath =
        (.mk [⟨"cpu", ⟨bytes "1"⟩⟩, ⟨"correct", ⟨bytes "true"⟩⟩], .nil) ∧
      (∀ s, convertToAPIExtensionsJSONSchemaProps scalarJSON
          cpuVariable.Schema.OpenAPIV3Schema = .ok s →
        ∃ v, scalarJSON.Unmarshal (bytes "1") = .ok v ∧ s.Default = some v) :=
  ⟨by decide,
    (C14_synthesis_has_default scalarJSON .stored [] [cpuVariable, correctVariable] testPath
      ("cpu", cpuVariable) (by decide) (by decide) ⟨bytes "1"⟩ rfl).1⟩

/-- C15: when the schema of a declaration without default converts,
`defaultClusterVariable` returns no error and sets the value of the variable to the four
bytes `null`, which is what `json.Marshal` gives for the nil value. -/
theorem C15_no_default_gives_null (json : EncodingJSON) (cv : ClusterVariable)
    (D : ClusterClassVariable) (p : FieldPath) (s : apiextensions.JSONSchemaProps)
    (hdefault : D.Schema.OpenAPIV3Schema.Default = none)
    (hconv : convertToAPIExtensionsJSONSchemaProps json D.Schema.OpenAPIV3Schema = .ok s)
    (hnull : json.Marshal .null = .ok (bytes "null")) :
    s.Default = none ∧
      defaultClusterVariable json cv D p = ({ cv with Value := { Raw := bytes "null" } }, .nil) ∧
      (defaultClusterVariable json cv D p).1.Value.Raw = [110, 117, 108, 108] := by
  have hdec := (convert_ok_default json _ s hconv).1
  rw [hdefault] at hdec
  have hs : s.Default = none := by
    simp only [decodeDefault, Except.ok.injEq] at hdec
    exact hdec.symm
  have hcall := defaultClusterVariable_of_ok json cv D p s (bytes "null") hconv
    (by rw [hs]; exact hnull)
  rw [hcall]
  have hbytes : bytes "null" = [110, 117, 108, 108] := by decide
  exact ⟨hs, rfl, hbytes⟩

/-- A run for C15: the declaration `correct` without default of the third case of
`Test_DefaultClusterVariables`, handed to `defaultClusterVariable` directly. -/
theorem C15_no_default_gives_null_witness :
    defaultClusterVariable scalarJSON ⟨"correct", ⟨bytes "false"⟩⟩ correctWithoutDefault testPath =
        (⟨"correct", ⟨[110, 117, 108, 108]⟩⟩, .nil) := by
  have hconv : convertToAPIExtensionsJSONSchemaProps scalarJSON
      correctWithoutDefault.Schema.OpenAPIV3Schema =
        .ok { Type_ := "boolean", Format := "", MaxLength := none, MinLength := none,
              Pattern := "", Maximum := none, ExclusiveMaximum := false, Minimum := none,
              ExclusiveMinimum := false, Enum := [], Default := none } := by
    rfl
  exact (C15_no_default_gives_null scalarJSON ⟨"correct", ⟨bytes "false"⟩⟩ correctWithoutDefault
    testPath _ rfl hconv (by rfl)).2.1

/-- C16: `defaultClusterVariable` leaves the name of the variable it is given as it was,
whatever the name of the declaration; and when it returns errors the whole variable, its
value included, is as it was. -/
theorem C16_only_value_changes (json : EncodingJSON) (cv : ClusterVariable)
    (D : ClusterClassVariable) (p : FieldPath) :
    (defaultClusterVariable json cv D p).1.Name = cv.Name ∧
      (0 < (defaultClusterVariable json cv D p).2.len →
        (defaultClusterVariable json cv D p).1.Value = cv.Value ∧
          (defaultClusterVariable json cv D p).1 = cv) ∧
      ((defaultClusterVariable json cv D p).2 ≠ .nil →
        (defaultClusterVariable json cv D p).1 = cv) := by
  have hcases : (defaultClusterVariable json cv D p).2 = .nil ∨
      (defaultClusterVariable json cv D p).1 = cv := by
    cases h : convertToAPIExtensionsJSONSchemaProps json D.Schema.OpenAPIV3Schema with
    | error err =>
      rw [defaultClusterVariable_of_convert_error json cv D p err h]
      exact Or.inr rfl
    | ok s =>
      cases hm : json.Marshal (s.Default.getD .null) with
      | error err =>
        rw [defaultClusterVariable_of_marshal_error json cv D p s err h hm]
        exact Or.inr rfl
      | ok raw =>
        rw [defaultClusterVariable_of_ok json cv D p s raw h hm]
        exact Or.inl rfl
  refine ⟨defaultClusterVariable_name json cv D p, ?_, ?_⟩
  · intro hlen
    rcases hcases with h | h
    · rw [h] at hlen
      exact absurd hlen (by decide)
    · exact ⟨by rw [h], h⟩
  · intro hne
    rcases hcases with h | h
    · exact absurd h hne
    · exact h

/-- Runs for C16: the case `Default boolean` of `Test_DefaultClusterVariable`; the same
declaration applied to a variable named `location`, whose name stays; and a declaration
with a malformed default, which leaves name and value alone. -/
theorem C16_only_value_changes_runs :
    defaultClusterVariable scalarJSON ⟨"correct", ⟨[]⟩⟩ correctVariable testPath =
        (⟨"correct", ⟨bytes "true"⟩⟩, .nil) ∧
      defaultClusterVariable scalarJSON ⟨"location", ⟨[]⟩⟩ correctVariable testPath =
        (⟨"location", ⟨bytes "true"⟩⟩, .nil) ∧
      defaultClusterVariable scalarJSON ⟨"location", ⟨bytes "7"⟩⟩ malformedVariable testPath =
        (⟨"location", ⟨bytes "7"⟩⟩, .mk [field.Invalid testPath ""
          (.invalidSchema "location" (.unmarshalDefault "not a scalar document"))]) := by
  decide

/-! ## Names of the result -/

theorem length_flatMap_le {α β : Type} (f : α → List β) (es : List α)
    (hlen : ∀ e ∈ es, (f e).length ≤ 1) : (es.flatMap f).length ≤ es.length := by
  induction es with
  | nil => simp
  | cons e es ih =>
    rw [List.flatMap_cons, List.length_append, List.length_cons]
    have h1 := hlen e (List.mem_cons_self _ _)
    have h2 := ih (fun e1 he1 => hlen e1 (List.mem_cons_of_mem _ he1))
    omega

theorem length_entries_le (ds : List ClusterClassVariable) :
    (getClusterClassVariablesMap ds).entries.length ≤ ((ds.map fun D => D.Name).dedup).length := by
  have hsub : (getClusterClassVariablesMap ds).entries.map Prod.fst ⊆ (ds.map fun D => D.Name).dedup := by
    intro k hk
    obtain ⟨e, he, hek⟩ := List.mem_map.mp hk
    have hd := declaration_of_entry ds e he
    rw [List.mem_dedup, ← hek, ← hd.2]
    exact List.mem_map_of_mem (fun D : ClusterClassVariable => D.Name) hd.1
  have hle := (List.subperm_of_subset (nodup_declaration_keys ds) hsub).length_le
  rw [List.length_map] at hle
  exact hle

/-- C17: for every input, repeated names in either list included, no two instances of the
result bear the same name, and the result has at most as many instances as there are
distinct declaration names. A call that returns errors returns no instance, so this holds
of it as well as of a successful call. -/
theorem C17_result_names_distinct (json : EncodingJSON) (order : RangeOrder)
    (vs : List ClusterVariable) (ds : List ClusterClassVariable) (p : FieldPath) :
    ((DefaultClusterVariables json order vs ds p).1.toList.map fun x => x.Name).Nodup ∧
      (DefaultClusterVariables json order vs ds p).1.toList.length ≤
        ((ds.map fun D => D.Name).dedup).length := by
  by_cases h : (order.visit (getClusterClassVariablesMap ds).entries).flatMap
      (entryErrors json (getClusterVariablesMap vs) p) = []
  · rw [DefaultClusterVariables_of_no_error json order vs ds p h, Slice.toList_mk]
    have hnd : ((order.visit (getClusterClassVariablesMap ds).entries).map Prod.fst).Nodup :=
      ((order.visit_perm _).map Prod.fst).nodup_iff.mpr (nodup_declaration_keys ds)
    refine ⟨nodup_result_names json vs p _ hnd, ?_⟩
    have h1 := length_flatMap_le (entryVariables json (getClusterVariablesMap vs) p)
      (order.visit (getClusterClassVariablesMap ds).entries)
      (fun e _ => entryVariables_length json _ p e)
    rw [(order.visit_perm _).length_eq] at h1
    exact Nat.le_trans h1 (length_entries_le ds)
  · rw [DefaultClusterVariables_of_error json order vs ds p h]
    simp

/-- A run for C17: the name `correct` is declared twice and supplied twice, the name `cpu`
is declared twice; the result has one instance for each of the two names. -/
theorem C17_result_names_distinct_runs :
    DefaultClusterVariables scalarJSON .stored
        [correctInstance, ⟨"correct", ⟨bytes "true"⟩⟩, ⟨"undeclared", ⟨bytes "1"⟩⟩]
        [correctVariable, cpuVariable, correctWithoutDefault, cpuVariable] testPath =
      (.mk [⟨"correct", ⟨bytes "true"⟩⟩, ⟨"cpu", ⟨bytes "1"⟩⟩], .nil) ∧
    (([correctVariable, cpuVariable, correctWithoutDefault, cpuVariable].map
      fun D => D.Name).dedup).length = 2 := by
  decide

/-! ## Independence of the order of the inputs -/

theorem get_instance_perm (vs1 vs2 : List ClusterVariable)
    (hvs : (vs1.map fun v => v.Name).Nodup) (hperm : vs2.Perm vs1) (k : String) :
    (getClusterVariablesMap vs2).get k = (getClusterVariablesMap vs1).get k := by
  have hvs2 : (vs2.map fun v => v.Name).Nodup := ((hperm.map _).nodup_iff).mpr hvs
  cases h1 : (getClusterVariablesMap vs1).get k with
  | none =>
    rw [get_instance_none_iff] at h1 ⊢
    exact fun I hI => h1 I (hperm.mem_iff.mp hI)
  | some I =>
    obtain ⟨hI, hname⟩ := get_instance_some vs1 k I h1
    rw [← hname]
    exact get_instance_of_mem vs2 hvs2 I (hperm.mem_iff.mpr hI)

theorem entry_congr (json : EncodingJSON) (m1 m2 : GoMap ClusterVariable) (p : FieldPath)
    (e : String × ClusterClassVariable) (h : m2.get e.1 = m1.get e.1) :
    entryVariables json m2 p e = entryVariables json m1 p e ∧
      entryErrors json m2 p e = entryErrors json m1 p e := by
  constructor <;> simp only [entryVariables, entryErrors, loopBody, h]

/-- C12: when the names of the instances and the names of the declarations are unique,
permuting the instance list and the declaration list, and ranging over the declaration
map in another order, changes neither whether the call fails nor what it returns up to
order: the two error lists are nil together and are permutations of one another, the two
results are nil together and are permutations of one another. -/
theorem C12_order_independent (json : EncodingJSON) (order1 order2 : RangeOrder)
    (vs1 vs2 : List ClusterVariable) (ds1 ds2 : List ClusterClassVariable) (p : FieldPath)
    (hvs : (vs1.map fun v => v.Name).Nodup) (hds : (ds1.map fun D => D.Name).Nodup)
    (hpv : vs2.Perm vs1) (hpd : ds2.Perm ds1) :
    ((DefaultClusterVariables json order1 vs1 ds1 p).2 = .nil ↔
        (DefaultClusterVariables json order2 vs2 ds2 p).2 = .nil) ∧
      ((DefaultClusterVariables json order1 vs1 ds1 p).1 = .nil ↔
        (DefaultClusterVariables json order2 vs2 ds2 p).1 = .nil) ∧
      (DefaultClusterVariables json order1 vs1 ds1 p).1.toList.Perm
        (DefaultClusterVariables json order2 vs2 ds2 p).1.toList ∧
      (DefaultClusterVariables json order1 vs1 ds1 p).2.toList.Perm
        (DefaultClusterVariables json order2 vs2 ds2 p).2.toList := by
  have hds2 : (ds2.map fun D => D.Name).Nodup := ((hpd.map _).nodup_iff).mpr hds
  have hes : (order1.visit (getClusterClassVariablesMap ds1).entries).Perm
      (order2.visit (getClusterClassVariablesMap ds2).entries) := by
    refine (order1.visit_perm _).trans (List.Perm.trans ?_ (order2.visit_perm _).symm)
    rw [declaration_entries_of_nodup ds1 hds, declaration_entries_of_nodup ds2 hds2]
    exact (hpd.map _).symm
  have hvars : List.Perm
      ((order1.visit (getClusterClassVariablesMap ds1).entries).flatMap
        (entryVariables json (getClusterVariablesMap vs1) p))
      ((order2.visit (getClusterClassVariablesMap ds2).entries).flatMap
        (entryVariables json (getClusterVariablesMap vs2) p)) := by
    rw [List.flatMap_congr (fun e _ =>
      (entry_congr json _ _ p e (get_instance_perm vs1 vs2 hvs hpv e.1)).1)]
    exact hes.flatMap_right _
  have herrs : List.Perm
      ((order1.visit (getClusterClassVariablesMap ds1).entries).flatMap
        (entryErrors json (getClusterVariablesMap vs1) p))
      ((order2.visit (getClusterClassVariablesMap ds2).entries).flatMap
        (entryErrors json (getClusterVariablesMap vs2) p)) := by
    rw [List.flatMap_congr (fun e _ =>
      (entry_congr json _ _ p e (get_instance_perm vs1 vs2 hvs hpv e.1)).2)]
    exact hes.flatMap_right _
  by_cases h1 : (order1.visit (getClusterClassVariablesMap ds1).entries).flatMap
      (entryErrors json (getClusterVariablesMap vs1) p) = []
  · have h2 : (order2.visit (getClusterClassVariablesMap ds2).entries).flatMap
        (entryErrors json (getClusterVariablesMap vs2) p) = [] := by
      rw [h1] at herrs
      exact List.nil_perm.mp herrs
    rw [DefaultClusterVariables_of_no_error json order1 vs1 ds1 p h1,
      DefaultClusterVariables_of_no_error json order2 vs2 ds2 p h2]
    exact ⟨by simp, by simp, hvars, List.Perm.refl _⟩
  · have h2 : (order2.visit (getClusterClassVariablesMap ds2).entries).flatMap
        (entryErrors json (getClusterVariablesMap vs2) p) ≠ [] := by
      intro h2
      rw [h2] at herrs
      exact h1 (List.perm_nil.mp herrs)
    rw [DefaultClusterVariables_of_error json order1 vs1 ds1 p h1,
      DefaultClusterVariables_of_error json order2 vs2 ds2 p h2]
    exact ⟨by simp, by simp, List.Perm.refl _, herrs⟩

/-- A run for C12: the second case of `Test_DefaultClusterVariables` with the declaration
`location` added, against the same input with both lists permuted and the declaration map
ranged over backwards. -/
theorem C12_order_independent_witness :
    DefaultClusterVariables scalarJSON .stored [correctInstance, ⟨"cpu", ⟨bytes "4"⟩⟩]
        [cpuVariable, locationVariable, correctVariable] testPath =
      (.mk [⟨"cpu", ⟨bytes "4"⟩⟩, ⟨"location", ⟨bytes "\"us-east\""⟩⟩, correctInstance], .nil) ∧
    DefaultClusterVariables scalarJSON .reversed [⟨"cpu", ⟨bytes "4"⟩⟩, correctInstance]
        [locationVariable, correctVariable, cpuVariable] testPath =
      (.mk [⟨"cpu", ⟨bytes "4"⟩⟩, correctInstance, ⟨"location", ⟨bytes "\"us-east\""⟩⟩], .nil) ∧
    (DefaultClusterVariables scalarJSON .stored [correctInstance, ⟨"cpu", ⟨bytes "4"⟩⟩]
        [cpuVariable, locationVariable, correctVariable] testPath).1.toList.Perm
      (DefaultClusterVariables scalarJSON .reversed [⟨"cpu", ⟨bytes "4"⟩⟩, correctInstance]
        [locationVariable, correctVariable, cpuVariable] testPath).1.toList :=
  ⟨by decide, by decide,
    (C12_order_independent scalarJSON .stored .reversed
      [correctInstance, ⟨"cpu", ⟨bytes "4"⟩⟩] [⟨"cpu", ⟨bytes "4"⟩⟩, correctInstance]
      [cpuVariable, locationVariable, correctVariable]
      [locationVariable, correctVariable, cpuVariable] testPath
      (by decide) (by decide) (by decide) (by decide)).2.2.1⟩

end Variables
